import Mathlib

/-!
Verification of the decision layer of the electrosteel pipe-detection line:
a shallow embedding of the geometry helpers (`src/vision/types.py`,
`src/logic/gate_sources.py`), the Pipe-Flow FSM (`src/logic/pipe_fsm.py`)
and the Gate FSM (`src/logic/gate_fsm.py`), together with proofs of the
behavioural properties stated in the design document.

Modelling conventions:
* Python floats are embedded as rationals (`ℚ`); all arithmetic used by the
  claims is exact.
* Python `dict`s (insertion ordered, unique keys) are association lists; the
  helpers `alistGet` / `alistSet` mirror lookup and `d[k] = v` assignment.
* The ROI containment test (`ROIManager.contains`, which delegates to the
  external cv2 point-polygon test) is an oracle parameter
  `contains : String → ℚ → ℚ → Bool`; the FSM logic treats it opaquely,
  exactly as the source does.
* PLC side effects (`plc.pulse(tag, ms)`) are recorded in an output trace; a
  pulse issued while a particular pipe record is being processed is tagged
  with that record's `pipe_uid` so that "pulse issued for this pipe" is
  expressible.
* `time.time()` is a per-tick input (`now`, `ts`).
-/

namespace PipeDetect

/-! ## Geometry and vision value types (`src/vision/types.py`) -/

/-- Axis-aligned bounding box, fields as in `BBox` (floats modelled as `ℚ`). -/
structure BBox where
  x1 : ℚ
  y1 : ℚ
  x2 : ℚ
  y2 : ℚ
deriving DecidableEq

/-- `BBox.w`: width clamped to be non-negative. -/
def BBox.w (b : BBox) : ℚ := max 0 (b.x2 - b.x1)

/-- `BBox.h`: height clamped to be non-negative. -/
def BBox.h (b : BBox) : ℚ := max 0 (b.y2 - b.y1)

/-- `BBox.area = w * h`. -/
def BBox.area (b : BBox) : ℚ := b.w * b.h

/-- `BBox.centroid`: midpoint of the box. -/
def BBox.centroid (b : BBox) : ℚ × ℚ := ((b.x1 + b.x2) / 2, (b.y1 + b.y2) / 2)

/-- One tracked detection for one frame (`TrackDet`). -/
structure TrackDet where
  cls_name : String
  conf : ℚ
  track_id : Option Int
  bbox : BBox
deriving DecidableEq

/-- `_iou` from `src/logic/gate_sources.py`: intersection over union of two
boxes, `0` when the intersection is empty or the union area is not positive. -/
def iou (a b : BBox) : ℚ :=
  let ix1 := max a.x1 b.x1
  let iy1 := max a.y1 b.y1
  let ix2 := min a.x2 b.x2
  let iy2 := min a.y2 b.y2
  let iw := max 0 (ix2 - ix1)
  let ih := max 0 (iy2 - iy1)
  let inter := iw * ih
  if inter ≤ 0 then 0
  else
    let union := a.area + b.area - inter
    if 0 < union then inter / union else 0

/-- Non-overlapping boxes: the two closed rectangles have disjoint interiors
because they are separated along one axis. -/
def BBox.separated (a b : BBox) : Prop :=
  a.x2 ≤ b.x1 ∨ b.x2 ≤ a.x1 ∨ a.y2 ≤ b.y1 ∨ b.y2 ≤ a.y1

instance (a b : BBox) : Decidable (BBox.separated a b) := by
  unfold BBox.separated; infer_instance

/-! ## C8: algebraic properties of `iou` -/

theorem iou_comm (a b : BBox) : iou a b = iou b a := by
  unfold iou
  rw [max_comm a.x1 b.x1, max_comm a.y1 b.y1, min_comm a.x2 b.x2,
    min_comm a.y2 b.y2, add_comm a.area b.area]

theorem iou_self (a : BBox) (h : 0 < a.area) : iou a a = 1 := by
  unfold iou
  simp only [max_self, min_self]
  have harea : max 0 (a.x2 - a.x1) * max 0 (a.y2 - a.y1) = a.area := rfl
  rw [harea]
  rw [if_neg (by linarith), if_pos (by linarith)]
  have : a.area + a.area - a.area = a.area := by ring
  rw [this, div_self (ne_of_gt h)]

theorem iou_separated (a b : BBox) (h : BBox.separated a b) : iou a b = 0 := by
  unfold iou
  have hzero : max 0 (min a.x2 b.x2 - max a.x1 b.x1) * max 0 (min a.y2 b.y2 - max a.y1 b.y1) ≤ 0 := by
    rcases h with h | h | h | h
    · have hx : min a.x2 b.x2 - max a.x1 b.x1 ≤ 0 := by
        have h1 : min a.x2 b.x2 ≤ a.x2 := min_le_left _ _
        have h2 : b.x1 ≤ max a.x1 b.x1 := le_max_right _ _
        linarith
      rw [max_eq_left hx]
      simp [mul_nonneg, le_max_left]
    · have hx : min a.x2 b.x2 - max a.x1 b.x1 ≤ 0 := by
        have h1 : min a.x2 b.x2 ≤ b.x2 := min_le_right _ _
        have h2 : a.x1 ≤ max a.x1 b.x1 := le_max_left _ _
        linarith
      rw [max_eq_left hx]
      simp [mul_nonneg, le_max_left]
    · have hy : min a.y2 b.y2 - max a.y1 b.y1 ≤ 0 := by
        have h1 : min a.y2 b.y2 ≤ a.y2 := min_le_left _ _
        have h2 : b.y1 ≤ max a.y1 b.y1 := le_max_right _ _
        linarith
      rw [max_eq_left hy]
      simp
    · have hy : min a.y2 b.y2 - max a.y1 b.y1 ≤ 0 := by
        have h1 : min a.y2 b.y2 ≤ b.y2 := min_le_right _ _
        have h2 : a.y1 ≤ max a.y1 b.y1 := le_max_left _ _
        linarith
      rw [max_eq_left hy]
      simp
  rw [if_pos hzero]

/-- C8: `iou` is symmetric; `iou(a,a) = 1` for every box of positive area;
`iou` is `0` for disjoint (non-overlapping) boxes. -/
theorem iou_algebraic_properties (a b : BBox) :
    iou a b = iou b a ∧ (0 < a.area → iou a a = 1) ∧
      (BBox.separated a b → iou a b = 0) :=
  ⟨iou_comm a b, iou_self a, iou_separated a b⟩

/-- Witness for C8 at concrete boxes: `a = (0,0,2,2)` has positive area and is
disjoint from `b = (3,0,5,2)`. -/
theorem iou_algebraic_properties_witness :
    iou ⟨0, 0, 2, 2⟩ ⟨3, 0, 5, 2⟩ = iou ⟨3, 0, 5, 2⟩ ⟨0, 0, 2, 2⟩ ∧
      iou ⟨0, 0, 2, 2⟩ ⟨0, 0, 2, 2⟩ = 1 ∧ iou ⟨0, 0, 2, 2⟩ ⟨3, 0, 5, 2⟩ = 0 :=
  ⟨(iou_algebraic_properties ⟨0, 0, 2, 2⟩ ⟨3, 0, 5, 2⟩).1,
    (iou_algebraic_properties ⟨0, 0, 2, 2⟩ ⟨3, 0, 5, 2⟩).2.1 (by norm_num [BBox.area, BBox.w, BBox.h]),
    (iou_algebraic_properties ⟨0, 0, 2, 2⟩ ⟨3, 0, 5, 2⟩).2.2 (by norm_num [BBox.separated])⟩

/-! ## Association lists modelling Python `dict` (insertion ordered) -/

/-- `d.get(k)`: value of the first (and, for genuine dicts, only) binding. -/
def alistGet {α β : Type} [BEq α] (l : List (α × β)) (k : α) : Option β :=
  (l.find? (fun kv => kv.1 == k)).map Prod.snd

/-- `d[k] = v`: replace the binding in place when the key is present,
append it otherwise (Python dicts keep the original position on update). -/
def alistSet {α β : Type} [BEq α] (l : List (α × β)) (k : α) (v : β) :
    List (α × β) :=
  if (l.find? (fun kv => kv.1 == k)).isSome then
    l.map (fun kv => if kv.1 == k then (k, v) else kv)
  else l ++ [(k, v)]

theorem find?_cons_true {α : Type} (p : α → Bool) (a : α) (l : List α)
    (h : p a = true) : List.find? p (a :: l) = some a :=
  List.find?_cons_of_pos l h

theorem find?_cons_false {α : Type} (p : α → Bool) (a : α) (l : List α)
    (h : p a = false) : List.find? p (a :: l) = List.find? p l :=
  List.find?_cons_of_neg l (by simp [h])

theorem mem_of_alistGet {α β : Type} [BEq α] [LawfulBEq α]
    {l : List (α × β)} {k : α} {v : β} (h : alistGet l k = some v) :
    (k, v) ∈ l := by
  unfold alistGet at h
  rcases Option.map_eq_some'.mp h with ⟨kv, hfind, hsnd⟩
  have hk : kv.1 = k := by
    have := List.find?_some hfind
    exact eq_of_beq this
  have hmem := List.mem_of_find?_eq_some hfind
  have : kv = (k, v) := by
    cases kv; simp_all
  rwa [this] at hmem

theorem alistGet_of_mem_nodup {α β : Type} [BEq α] [LawfulBEq α]
    {l : List (α × β)} {k : α} {v : β}
    (hnd : (l.map Prod.fst).Nodup) (hmem : (k, v) ∈ l) :
    alistGet l k = some v := by
  induction l with
  | nil => simp at hmem
  | cons kv rest ih =>
    rcases List.mem_cons.mp hmem with heq | hrest
    · subst heq
      unfold alistGet
      simp [List.find?]
    · have hk : kv.1 ≠ k := by
        intro hEq
        have : k ∈ rest.map Prod.fst := by
          exact List.mem_map.mpr ⟨(k, v), hrest, rfl⟩
        simp [List.nodup_cons] at hnd
        exact hnd.1 v (by rwa [← hEq] at hrest)
      unfold alistGet
      have hbeq : (kv.1 == k) = false := by
        simp [hk]
      simp only [List.find?, hbeq]
      have hnd' : (rest.map Prod.fst).Nodup := by
        simp [List.nodup_cons] at hnd
        exact hnd.2
      exact ih hnd' hrest

theorem mem_alistSet_elim {α β : Type} [BEq α] [LawfulBEq α]
    {l : List (α × β)} {k : α} {v : β} {kv : α × β}
    (h : kv ∈ alistSet l k v) : kv ∈ l ∨ kv = (k, v) := by
  unfold alistSet at h
  split at h
  · rcases List.mem_map.mp h with ⟨kv', hmem, heq⟩
    by_cases hk : (kv'.1 == k) = true
    · right; rw [if_pos hk] at heq; exact heq.symm
    · left; rw [if_neg (by simp_all)] at heq; rwa [← heq]
  · rcases List.mem_append.mp h with hmem | hmem
    · left; exact hmem
    · right; simpa using hmem

theorem alistGet_alistSet_self {α β : Type} [BEq α] [LawfulBEq α]
    {l : List (α × β)} {k : α} (v : β) {w : β}
    (h : alistGet l k = some w) :
    alistGet (alistSet l k v) k = some v := by
  have hfind : (l.find? (fun kv => kv.1 == k)).isSome := by
    unfold alistGet at h
    cases hf : l.find? (fun kv => kv.1 == k) with
    | none => rw [hf] at h; simp at h
    | some kv => simp
  unfold alistGet alistSet
  rw [if_pos hfind]
  clear h
  induction l with
  | nil => simp at hfind
  | cons kv rest ih =>
    by_cases hk : (kv.1 == k) = true
    · rw [List.map_cons, if_pos hk,
        find?_cons_true (fun kv => kv.1 == k) (k, v) _ (by simp)]
      simp
    · have hk' : (kv.1 == k) = false := by simpa using hk
      rw [List.map_cons, if_neg hk, find?_cons_false (fun kv => kv.1 == k) kv _ hk']
      apply ih
      rw [find?_cons_false (fun kv => kv.1 == k) kv _ hk'] at hfind
      exact hfind

theorem alistGet_alistSet_ne {α β : Type} [BEq α] [LawfulBEq α]
    {l : List (α × β)} {k k' : α} (v : β) (h : k' ≠ k) :
    alistGet (alistSet l k v) k' = alistGet l k' := by
  have hkk : (k == k') = false := by
    rw [beq_eq_false_iff_ne]
    exact fun hEq => h hEq.symm
  unfold alistGet alistSet
  split
  · rename_i hsome
    clear hsome
    induction l with
    | nil => simp
    | cons kv rest ih =>
      by_cases hk : (kv.1 == k) = true
      · have hkeq : kv.1 = k := eq_of_beq hk
        rw [List.map_cons, if_pos hk,
          find?_cons_false (fun kv => kv.1 == k') (k, v) _ (by simpa using hkk),
          find?_cons_false (fun kv => kv.1 == k') kv _ (by simpa [hkeq] using hkk)]
        exact ih
      · rw [List.map_cons, if_neg hk]
        cases hv : (kv.1 == k') with
        | true =>
          rw [find?_cons_true (fun kv => kv.1 == k') kv _ hv,
            find?_cons_true (fun kv => kv.1 == k') kv _ hv]
        | false =>
          rw [find?_cons_false (fun kv => kv.1 == k') kv _ hv,
            find?_cons_false (fun kv => kv.1 == k') kv _ hv]
          exact ih
  · rw [List.find?_append]
    cases hf : l.find? (fun kv => kv.1 == k') with
    | some kv => simp
    | none =>
      simp only [Option.none_or]
      rw [find?_cons_false (fun kv => kv.1 == k') (k, v) _ (by simpa using hkk)]
      simp

/-- Keys of an updated dict: unchanged when the key was present, the key is
appended when absent; in both cases key-distinctness is preserved. -/
theorem alistSet_keys_nodup {α β : Type} [BEq α] [LawfulBEq α]
    {l : List (α × β)} {k : α} {v : β}
    (hnd : (l.map Prod.fst).Nodup) :
    ((alistSet l k v).map Prod.fst).Nodup := by
  unfold alistSet
  split
  · have : (l.map (fun kv => if kv.1 == k then (k, v) else kv)).map Prod.fst
        = l.map Prod.fst := by
      rw [List.map_map]
      apply List.map_congr_left
      intro kv _
      by_cases hk : (kv.1 == k) = true
      · simp [hk, eq_of_beq hk]
      · simp [hk]
    rw [this]
    exact hnd
  · rename_i hnone
    rw [Option.not_isSome_iff_eq_none, List.find?_eq_none] at hnone
    rw [List.map_append]
    simp only [List.map_cons, List.map_nil]
    rw [List.nodup_append]
    refine ⟨hnd, List.nodup_singleton k, ?_⟩
    intro a ha
    simp only [List.mem_singleton]
    rcases List.mem_map.mp ha with ⟨kv, hmem, heq⟩
    intro hak
    exact hnone kv hmem (by rw [beq_iff_eq, heq, hak])

/-! ## ROI names (`src/utils/roi_names.py`) -/

namespace RoiName

def LOADCELL : String := "roi_loadcell"
def CASTER5_ORIGIN : String := "roi_caster5_origin"
def LEFT_ORIGIN : String := "roi_left_origin"
def RIGHT_ORIGIN : String := "roi_right_origin"
def SAFETY_CRITICAL : String := "roi_safety_critical"
def GATE1_OPEN : String := "roi_gate1_open"

end RoiName

/-! ## Pipe data model (`src/logic/datatypes.py`, `src/logic/events.py`) -/

/-- Per-pipe record; field defaults are those of the `PipeStats` dataclass.
`pipe_uid` (a string `caster5_<epoch>_<seq>` in the source, injective in the
sequence number within a run) is modelled by the sequence number itself. -/
structure PipeStats where
  pipe_uid : Nat
  tracker_id : Int
  origin : Option String := none
  state : String := "moving"
  t_origin : Option ℚ := none
  t_loadcell_enter : Option ℚ := none
  t_loadcell_exit : Option ℚ := none
  frames_seen : Nat := 0
  frames_missing : Int := 0
  conf_sum_full : ℚ := 0
  conf_count_full : Nat := 0
  conf_sum_till_gate : ℚ := 0
  conf_count_till_gate : Nat := 0
  reached_gate_zone : Bool := false
  last_seen_frame : Int := 0
  last_seen_ts : ℚ := 0
  counted : Bool := false
  origin_hits : Nat := 0
  loadcell_hits : Nat := 0
  loadcell_exit_misses : Nat := 0
deriving DecidableEq

/-- `PipeEnteredLoadcellEvent` / `PipeExitedLoadcellEvent`. -/
inductive PipeEvent where
  | entered (pipe_uid : Nat) (tracker_id : Int) (t_enter : ℚ)
  | exited (pipe_uid : Nat) (tracker_id : Int) (t_exit : ℚ)
deriving DecidableEq

/-- Uid of the record the event is about. -/
def PipeEvent.uid : PipeEvent → Nat
  | .entered u _ _ => u
  | .exited u _ _ => u

def PipeEvent.isExit : PipeEvent → Bool
  | .entered _ _ _ => false
  | .exited _ _ _ => true

/-- One `plc.pulse(tag, ms)` call; `uid` identifies the pipe record whose
processing issued it. -/
structure Pulse where
  tag : String
  ms : Nat
  uid : Nat
deriving DecidableEq

/-! ## Pipe-Flow FSM (`src/logic/pipe_fsm.py`) -/

/-- Configuration and internal state of `PipeFlowFSM`.  The `rois` manager is
abstracted by the containment oracle `contains`; the PLC client by the pulse
trace in the update result. -/
structure PipeFlowFSM where
  contains : String → ℚ → ℚ → Bool
  pulse_tag : String
  pulse_ms : Nat
  origin_confirm_frames : Nat := 2
  loadcell_enter_confirm_frames : Nat := 1
  loadcell_exit_confirm_frames : Nat := 2
  stale_track_frames : Nat := 45
  rearm_empty_frames : Nat := 10
  pipes : List (Int × PipeStats) := []
  seq : Nat := 0
  loadcell_armed : Bool := true
  loadcell_empty_streak : Nat := 0

/-- Fresh record created on first sight of a tracker id (`PipeStats(...)`
followed by the two `last_seen` assignments in `update`). -/
def freshPipe (uid : Nat) (tid : Int) (frame_idx : Int) (ts : ℚ) : PipeStats :=
  { pipe_uid := uid, tracker_id := tid, last_seen_frame := frame_idx,
    last_seen_ts := ts }

/-- Missing-frame accounting (`update`, the `frames_seen > 0` block). -/
def stepMissing (frame_idx : Int) (p : PipeStats) : PipeStats :=
  if p.frames_seen > 0 then
    let gap : Int := (frame_idx - p.last_seen_frame) - 1
    if gap > 0 then { p with frames_missing := p.frames_missing + gap } else p
  else p

/-- Seen counters (`p.frames_seen += 1` … `p.tracker_id = tid`). -/
def stepSeen (frame_idx : Int) (ts : ℚ) (tid : Int) (p : PipeStats) : PipeStats :=
  { p with
    frames_seen := p.frames_seen + 1
    last_seen_frame := frame_idx
    last_seen_ts := ts
    tracker_id := tid }

/-- Origin assignment (sticky; confirmation counting for "caster", immediate
for the side-exclusion zones). -/
def stepOrigin (cfg : PipeFlowFSM) (ts : ℚ) (cx cy : ℚ) (p : PipeStats) :
    PipeStats :=
  if p.origin = none then
    if cfg.contains RoiName.CASTER5_ORIGIN cx cy then
      let hits := p.origin_hits + 1
      if hits ≥ cfg.origin_confirm_frames then
        { p with
          origin_hits := hits
          origin := some "caster"
          t_origin := if p.t_origin = none then some ts else p.t_origin }
      else { p with origin_hits := hits }
    else if cfg.contains RoiName.LEFT_ORIGIN cx cy
        || cfg.contains RoiName.RIGHT_ORIGIN cx cy then
      { p with origin := some "other" }
    else p
  else p

/-- Confidence aggregation, with the one-way "reached gate zone" latch. -/
def stepConf (cfg : PipeFlowFSM) (conf : ℚ) (cx cy : ℚ) (p : PipeStats) :
    PipeStats :=
  let p1 := { p with
    conf_sum_full := p.conf_sum_full + conf
    conf_count_full := p.conf_count_full + 1 }
  if p1.reached_gate_zone then p1
  else
    let p2 := { p1 with
      conf_sum_till_gate := p1.conf_sum_till_gate + conf
      conf_count_till_gate := p1.conf_count_till_gate + 1 }
    if cfg.contains RoiName.GATE1_OPEN cx cy then
      { p2 with reached_gate_zone := true }
    else p2

/-- Output of the load-cell entry block. -/
structure EnterOut where
  p : PipeStats
  armed : Bool
  events : List PipeEvent
  pulses : List Pulse

/-- Load-cell entry confirmation and the one-shot PLC trigger. -/
def stepEnter (cfg : PipeFlowFSM) (ts : ℚ) (tid : Int) (cx cy : ℚ)
    (armed : Bool) (p : PipeStats) : EnterOut :=
  if p.origin = some "caster" ∧ p.t_loadcell_enter = none then
    if cfg.contains RoiName.LOADCELL cx cy then
      let hits := p.loadcell_hits + 1
      if armed ∧ hits ≥ cfg.loadcell_enter_confirm_frames then
        let pA := { p with
          loadcell_hits := hits
          t_loadcell_enter := some ts
          state := "on_loadcell" }
        if pA.counted then ⟨pA, armed, [], []⟩
        else
          ⟨{ pA with counted := true }, false,
            [.entered pA.pipe_uid tid ts],
            [⟨cfg.pulse_tag, cfg.pulse_ms, pA.pipe_uid⟩]⟩
      else ⟨{ p with loadcell_hits := hits }, armed, [], []⟩
    else ⟨{ p with loadcell_hits := 0 }, armed, [], []⟩
  else ⟨p, armed, [], []⟩

/-- Output of the load-cell exit block. -/
structure ExitOut where
  p : PipeStats
  events : List PipeEvent

/-- Load-cell exit confirmation. -/
def stepExit (cfg : PipeFlowFSM) (ts : ℚ) (tid : Int) (cx cy : ℚ)
    (p : PipeStats) : ExitOut :=
  if p.origin = some "caster" ∧ p.t_loadcell_enter ≠ none
      ∧ p.t_loadcell_exit = none then
    if !cfg.contains RoiName.LOADCELL cx cy then
      let m := p.loadcell_exit_misses + 1
      if m ≥ cfg.loadcell_exit_confirm_frames then
        ⟨{ p with
            loadcell_exit_misses := m
            t_loadcell_exit := some ts
            state := "parked" }, [.exited p.pipe_uid tid ts]⟩
      else ⟨{ p with loadcell_exit_misses := m }, []⟩
    else ⟨{ p with loadcell_exit_misses := 0 }, []⟩
  else ⟨p, []⟩

/-- Loop state of the per-detection pass of `PipeFlowFSM.update`. -/
structure PipeAcc where
  pipes : List (Int × PipeStats)
  seq : Nat
  armed : Bool
  updated : List PipeStats
  events : List PipeEvent
  pulses : List Pulse

/-- Result of the full per-record pipeline for one detection. -/
structure ProcOut where
  p : PipeStats
  armed : Bool
  events : List PipeEvent
  pulses : List Pulse

/-- The body of the `for d in dets` loop applied to one record: steps 2–6 of
the per-tick algorithm in source order. -/
def processRecord (cfg : PipeFlowFSM) (frame_idx : Int) (ts : ℚ) (tid : Int)
    (cx cy conf : ℚ) (armed : Bool) (p0 : PipeStats) : ProcOut :=
  let p1 := stepMissing frame_idx p0
  let p2 := stepSeen frame_idx ts tid p1
  let p3 := stepOrigin cfg ts cx cy p2
  let p4 := stepConf cfg conf cx cy p3
  let e := stepEnter cfg ts tid cx cy armed p4
  let x := stepExit cfg ts tid cx cy e.p
  ⟨x.p, e.armed, e.events ++ x.events, e.pulses⟩

/-- One iteration of the `for d in dets` loop of `PipeFlowFSM.update`. -/
def detStep (cfg : PipeFlowFSM) (frame_idx : Int) (ts : ℚ) (acc : PipeAcc)
    (d : TrackDet) : PipeAcc :=
  if d.cls_name ≠ "pipe" then acc
  else
    match d.track_id with
    | none => acc
    | some tid =>
      let cx := (d.bbox.centroid).1
      let cy := (d.bbox.centroid).2
      let found := alistGet acc.pipes tid
      let p0 := match found with
        | some p => p
        | none => freshPipe (acc.seq + 1) tid frame_idx ts
      let seq1 := match found with
        | some _ => acc.seq
        | none => acc.seq + 1
      let r := processRecord cfg frame_idx ts tid cx cy d.conf acc.armed p0
      { pipes := alistSet acc.pipes tid r.p
        seq := seq1
        armed := r.armed
        updated := acc.updated ++ [r.p]
        events := acc.events ++ r.events
        pulses := acc.pulses ++ r.pulses }

/-- Whether any tracked pipe-class detection has its centroid inside the
load-cell ROI (the occupancy scan at the top of `update`). -/
def anyPipeInLoadcell (cfg : PipeFlowFSM) (dets : List TrackDet) : Bool :=
  dets.any (fun d =>
    d.cls_name == "pipe" && d.track_id.isSome
      && cfg.contains RoiName.LOADCELL (d.bbox.centroid).1 (d.bbox.centroid).2)

/-- Result of one `PipeFlowFSM.update` call: the new FSM state, the
`updated` list, the emitted events, and the PLC pulses issued. -/
structure PipeUpdateResult where
  fsm : PipeFlowFSM
  updated : List PipeStats
  events : List PipeEvent
  pulses : List Pulse

/-- Empty-streak counter after the occupancy scan. -/
def rearmStreak (fsm : PipeFlowFSM) (dets : List TrackDet) : Nat :=
  if anyPipeInLoadcell fsm dets then 0 else fsm.loadcell_empty_streak + 1

/-- Armed flag after the occupancy scan (the re-arm rule). -/
def rearmArmed (fsm : PipeFlowFSM) (dets : List TrackDet) : Bool :=
  if anyPipeInLoadcell fsm dets then fsm.loadcell_armed
  else if !fsm.loadcell_armed
      && rearmStreak fsm dets ≥ fsm.rearm_empty_frames then true
  else fsm.loadcell_armed

/-- The whole `for d in dets` pass. -/
def detPass (fsm : PipeFlowFSM) (frame_idx : Int) (ts : ℚ)
    (dets : List TrackDet) : PipeAcc :=
  dets.foldl (detStep fsm frame_idx ts)
    ⟨fsm.pipes, fsm.seq, rearmArmed fsm dets, [], [], []⟩

/-- The stale-track test (`frame_idx - last_seen_frame > stale_track_frames`,
strict). -/
def isStale (fsm : PipeFlowFSM) (frame_idx : Int) (kv : Int × PipeStats) :
    Bool :=
  frame_idx - kv.2.last_seen_frame > (fsm.stale_track_frames : Int)

/-- Synthesized force-exits for reclaimed records: for every stale record
that entered but never exited the load-cell, the repaired record and its
synthesized exit event, in map order. -/
def staleOut (fsm : PipeFlowFSM) (frame_idx : Int) (ts : ℚ)
    (pipes : List (Int × PipeStats)) : List (PipeStats × PipeEvent) :=
  (pipes.filter (fun kv => isStale fsm frame_idx kv)).filterMap (fun kv =>
    if kv.2.t_loadcell_enter ≠ none ∧ kv.2.t_loadcell_exit = none then
      some ({ kv.2 with t_loadcell_exit := some ts, state := "parked" },
        PipeEvent.exited kv.2.pipe_uid kv.1 ts)
    else none)

/-- `PipeFlowFSM.update(frame_idx, ts, dets)`. -/
def PipeFlowFSM.update (fsm : PipeFlowFSM) (frame_idx : Int) (ts : ℚ)
    (dets : List TrackDet) : PipeUpdateResult :=
  let acc1 := detPass fsm frame_idx ts dets
  { fsm := { fsm with
      pipes := acc1.pipes.filter (fun kv => !isStale fsm frame_idx kv)
      seq := acc1.seq
      loadcell_armed := acc1.armed
      loadcell_empty_streak := rearmStreak fsm dets }
    updated := acc1.updated ++ (staleOut fsm frame_idx ts acc1.pipes).map
      (fun q => q.1)
    events := acc1.events ++ (staleOut fsm frame_idx ts acc1.pipes).map
      (fun q => q.2)
    pulses := acc1.pulses }

/-- One tick of the iterated-update harness. -/
def updateManyStep (st : PipeFlowFSM × List Pulse)
    (i : Int × ℚ × List TrackDet) : PipeFlowFSM × List Pulse :=
  let r := st.1.update i.1 i.2.1 i.2.2
  (r.fsm, st.2 ++ r.pulses)

theorem updateManyStep_eq (g : PipeFlowFSM) (acc : List Pulse)
    (i : Int × ℚ × List TrackDet) :
    updateManyStep (g, acc) i
      = ((g.update i.1 i.2.1 i.2.2).fsm,
          acc ++ (g.update i.1 i.2.1 i.2.2).pulses) := rfl

/-- Iterated updates; collects the pulses of every tick. -/
def PipeFlowFSM.updateMany (fsm : PipeFlowFSM)
    (inputs : List (Int × ℚ × List TrackDet)) : PipeFlowFSM × List Pulse :=
  inputs.foldl updateManyStep (fsm, [])

/-! ## Field-level characterization of the per-detection steps -/

theorem stepMissing_eq (f : Int) (p : PipeStats) :
    stepMissing f p =
      { p with
        frames_missing :=
          if 0 < p.frames_seen ∧ 1 < f - p.last_seen_frame then
            p.frames_missing + (f - p.last_seen_frame - 1)
          else p.frames_missing } := by
  simp only [stepMissing]
  split_ifs with h1 h2 h3 h4 <;> first | rfl | omega

theorem stepOrigin_of_some (cfg : PipeFlowFSM) (ts cx cy : ℚ) (p : PipeStats)
    {o : String} (h : p.origin = some o) : stepOrigin cfg ts cx cy p = p := by
  unfold stepOrigin
  rw [if_neg (by simp [h])]

theorem stepOrigin_pipe_uid (cfg : PipeFlowFSM) (ts cx cy : ℚ) (p : PipeStats) :
    (stepOrigin cfg ts cx cy p).pipe_uid = p.pipe_uid := by
  simp only [stepOrigin]; split_ifs <;> rfl

theorem stepOrigin_counted (cfg : PipeFlowFSM) (ts cx cy : ℚ) (p : PipeStats) :
    (stepOrigin cfg ts cx cy p).counted = p.counted := by
  simp only [stepOrigin]; split_ifs <;> rfl

theorem stepOrigin_t_enter (cfg : PipeFlowFSM) (ts cx cy : ℚ) (p : PipeStats) :
    (stepOrigin cfg ts cx cy p).t_loadcell_enter = p.t_loadcell_enter := by
  simp only [stepOrigin]; split_ifs <;> rfl

theorem stepOrigin_t_exit (cfg : PipeFlowFSM) (ts cx cy : ℚ) (p : PipeStats) :
    (stepOrigin cfg ts cx cy p).t_loadcell_exit = p.t_loadcell_exit := by
  simp only [stepOrigin]; split_ifs <;> rfl

theorem stepOrigin_loadcell_hits (cfg : PipeFlowFSM) (ts cx cy : ℚ)
    (p : PipeStats) :
    (stepOrigin cfg ts cx cy p).loadcell_hits = p.loadcell_hits := by
  simp only [stepOrigin]; split_ifs <;> rfl

theorem stepOrigin_frames_missing (cfg : PipeFlowFSM) (ts cx cy : ℚ)
    (p : PipeStats) :
    (stepOrigin cfg ts cx cy p).frames_missing = p.frames_missing := by
  simp only [stepOrigin]; split_ifs <;> rfl

theorem stepOrigin_last_seen_frame (cfg : PipeFlowFSM) (ts cx cy : ℚ)
    (p : PipeStats) :
    (stepOrigin cfg ts cx cy p).last_seen_frame = p.last_seen_frame := by
  simp only [stepOrigin]; split_ifs <;> rfl

/-- `origin` is sticky: a set origin is never overwritten. -/
theorem stepOrigin_origin_mono (cfg : PipeFlowFSM) (ts cx cy : ℚ)
    (p : PipeStats) {o : String} (h : p.origin = some o) :
    (stepOrigin cfg ts cx cy p).origin = some o := by
  rw [stepOrigin_of_some cfg ts cx cy p h, h]

theorem stepConf_pipe_uid (cfg : PipeFlowFSM) (c cx cy : ℚ) (p : PipeStats) :
    (stepConf cfg c cx cy p).pipe_uid = p.pipe_uid := by
  simp only [stepConf]; split_ifs <;> rfl

theorem stepConf_counted (cfg : PipeFlowFSM) (c cx cy : ℚ) (p : PipeStats) :
    (stepConf cfg c cx cy p).counted = p.counted := by
  simp only [stepConf]; split_ifs <;> rfl

theorem stepConf_origin (cfg : PipeFlowFSM) (c cx cy : ℚ) (p : PipeStats) :
    (stepConf cfg c cx cy p).origin = p.origin := by
  simp only [stepConf]; split_ifs <;> rfl

theorem stepConf_t_enter (cfg : PipeFlowFSM) (c cx cy : ℚ) (p : PipeStats) :
    (stepConf cfg c cx cy p).t_loadcell_enter = p.t_loadcell_enter := by
  simp only [stepConf]; split_ifs <;> rfl

theorem stepConf_t_exit (cfg : PipeFlowFSM) (c cx cy : ℚ) (p : PipeStats) :
    (stepConf cfg c cx cy p).t_loadcell_exit = p.t_loadcell_exit := by
  simp only [stepConf]; split_ifs <;> rfl

theorem stepConf_loadcell_hits (cfg : PipeFlowFSM) (c cx cy : ℚ)
    (p : PipeStats) :
    (stepConf cfg c cx cy p).loadcell_hits = p.loadcell_hits := by
  simp only [stepConf]; split_ifs <;> rfl

theorem stepConf_frames_missing (cfg : PipeFlowFSM) (c cx cy : ℚ)
    (p : PipeStats) :
    (stepConf cfg c cx cy p).frames_missing = p.frames_missing := by
  simp only [stepConf]; split_ifs <;> rfl

theorem stepConf_last_seen_frame (cfg : PipeFlowFSM) (c cx cy : ℚ)
    (p : PipeStats) :
    (stepConf cfg c cx cy p).last_seen_frame = p.last_seen_frame := by
  simp only [stepConf]; split_ifs <;> rfl

theorem stepEnter_pipe_uid (cfg : PipeFlowFSM) (ts : ℚ) (tid : Int)
    (cx cy : ℚ) (armed : Bool) (p : PipeStats) :
    (stepEnter cfg ts tid cx cy armed p).p.pipe_uid = p.pipe_uid := by
  simp only [stepEnter]; split_ifs <;> rfl

theorem stepEnter_origin (cfg : PipeFlowFSM) (ts : ℚ) (tid : Int)
    (cx cy : ℚ) (armed : Bool) (p : PipeStats) :
    (stepEnter cfg ts tid cx cy armed p).p.origin = p.origin := by
  simp only [stepEnter]; split_ifs <;> rfl

theorem stepEnter_t_exit (cfg : PipeFlowFSM) (ts : ℚ) (tid : Int)
    (cx cy : ℚ) (armed : Bool) (p : PipeStats) :
    (stepEnter cfg ts tid cx cy armed p).p.t_loadcell_exit = p.t_loadcell_exit := by
  simp only [stepEnter]; split_ifs <;> rfl

theorem stepEnter_frames_missing (cfg : PipeFlowFSM) (ts : ℚ) (tid : Int)
    (cx cy : ℚ) (armed : Bool) (p : PipeStats) :
    (stepEnter cfg ts tid cx cy armed p).p.frames_missing = p.frames_missing := by
  simp only [stepEnter]; split_ifs <;> rfl

theorem stepEnter_last_seen_frame (cfg : PipeFlowFSM) (ts : ℚ) (tid : Int)
    (cx cy : ℚ) (armed : Bool) (p : PipeStats) :
    (stepEnter cfg ts tid cx cy armed p).p.last_seen_frame = p.last_seen_frame := by
  simp only [stepEnter]; split_ifs <;> rfl

/-- The `counted` latch is never cleared. -/
theorem stepEnter_counted_mono (cfg : PipeFlowFSM) (ts : ℚ) (tid : Int)
    (cx cy : ℚ) (armed : Bool) (p : PipeStats) (h : p.counted = true) :
    (stepEnter cfg ts tid cx cy armed p).p.counted = true := by
  simp only [stepEnter]; split_ifs <;> simp [h]

/-- A record already counted never issues a pulse. -/
theorem stepEnter_counted_no_pulse (cfg : PipeFlowFSM) (ts : ℚ) (tid : Int)
    (cx cy : ℚ) (armed : Bool) (p : PipeStats) (h : p.counted = true) :
    (stepEnter cfg ts tid cx cy armed p).pulses = [] := by
  simp only [stepEnter]
  split_ifs with h1 h2 h3 <;> first | rfl | simp_all

/-- Every pulse issued by the entry block carries the record's own uid and
the configured tag and duration. -/
theorem stepEnter_pulses_shape (cfg : PipeFlowFSM) (ts : ℚ) (tid : Int)
    (cx cy : ℚ) (armed : Bool) (p : PipeStats) :
    (stepEnter cfg ts tid cx cy armed p).pulses = []
      ∨ (stepEnter cfg ts tid cx cy armed p).pulses
          = [⟨cfg.pulse_tag, cfg.pulse_ms, p.pipe_uid⟩] := by
  simp only [stepEnter]
  split_ifs <;> simp

/-- The entry block can only set `t_loadcell_enter` for an (already eligible)
"caster" record. -/
theorem stepEnter_t_enter_inv (cfg : PipeFlowFSM) (ts : ℚ) (tid : Int)
    (cx cy : ℚ) (armed : Bool) (p : PipeStats)
    (h : (stepEnter cfg ts tid cx cy armed p).p.t_loadcell_enter ≠ none) :
    p.t_loadcell_enter ≠ none ∨ p.origin = some "caster" := by
  simp only [stepEnter] at h
  split_ifs at h with h1 h2 h3 h4 <;>
    first
      | (left; exact h)
      | (right; exact h1.1)

/-- Every event appended by the entry block carries the record's own uid. -/
theorem stepEnter_events_uid (cfg : PipeFlowFSM) (ts : ℚ) (tid : Int)
    (cx cy : ℚ) (armed : Bool) (p : PipeStats) :
    ∀ e ∈ (stepEnter cfg ts tid cx cy armed p).events, e.uid = p.pipe_uid := by
  simp only [stepEnter]
  split_ifs <;> simp [PipeEvent.uid]

/-- When the centroid is outside the load-cell ROI the entry block neither
pulses, nor emits, nor changes the armed flag. -/
theorem stepEnter_outside (cfg : PipeFlowFSM) (ts : ℚ) (tid : Int)
    (cx cy : ℚ) (armed : Bool) (p : PipeStats)
    (h : cfg.contains RoiName.LOADCELL cx cy = false) :
    (stepEnter cfg ts tid cx cy armed p).armed = armed
      ∧ (stepEnter cfg ts tid cx cy armed p).pulses = []
      ∧ (stepEnter cfg ts tid cx cy armed p).events = []
      ∧ (stepEnter cfg ts tid cx cy armed p).p.t_loadcell_enter
          = p.t_loadcell_enter := by
  simp only [stepEnter]
  split_ifs with h1 h2 h3 h4 <;> simp_all

theorem stepExit_pipe_uid (cfg : PipeFlowFSM) (ts : ℚ) (tid : Int)
    (cx cy : ℚ) (p : PipeStats) :
    (stepExit cfg ts tid cx cy p).p.pipe_uid = p.pipe_uid := by
  simp only [stepExit]; split_ifs <;> rfl

theorem stepExit_counted (cfg : PipeFlowFSM) (ts : ℚ) (tid : Int)
    (cx cy : ℚ) (p : PipeStats) :
    (stepExit cfg ts tid cx cy p).p.counted = p.counted := by
  simp only [stepExit]; split_ifs <;> rfl

theorem stepExit_origin (cfg : PipeFlowFSM) (ts : ℚ) (tid : Int)
    (cx cy : ℚ) (p : PipeStats) :
    (stepExit cfg ts tid cx cy p).p.origin = p.origin := by
  simp only [stepExit]; split_ifs <;> rfl

theorem stepExit_t_enter (cfg : PipeFlowFSM) (ts : ℚ) (tid : Int)
    (cx cy : ℚ) (p : PipeStats) :
    (stepExit cfg ts tid cx cy p).p.t_loadcell_enter = p.t_loadcell_enter := by
  simp only [stepExit]; split_ifs <;> rfl

theorem stepExit_frames_missing (cfg : PipeFlowFSM) (ts : ℚ) (tid : Int)
    (cx cy : ℚ) (p : PipeStats) :
    (stepExit cfg ts tid cx cy p).p.frames_missing = p.frames_missing := by
  simp only [stepExit]; split_ifs <;> rfl

theorem stepExit_last_seen_frame (cfg : PipeFlowFSM) (ts : ℚ) (tid : Int)
    (cx cy : ℚ) (p : PipeStats) :
    (stepExit cfg ts tid cx cy p).p.last_seen_frame = p.last_seen_frame := by
  simp only [stepExit]; split_ifs <;> rfl

/-- The exit block can only set `t_loadcell_exit` when entry was latched. -/
theorem stepExit_t_exit_inv (cfg : PipeFlowFSM) (ts : ℚ) (tid : Int)
    (cx cy : ℚ) (p : PipeStats)
    (h : (stepExit cfg ts tid cx cy p).p.t_loadcell_exit ≠ none) :
    p.t_loadcell_exit ≠ none ∨ p.t_loadcell_enter ≠ none := by
  simp only [stepExit] at h
  split_ifs at h with h1 h2 h3 <;>
    first
      | (left; exact h)
      | (right; exact h1.2.1)

/-- Every event appended by the exit block carries the record's own uid. -/
theorem stepExit_events_uid (cfg : PipeFlowFSM) (ts : ℚ) (tid : Int)
    (cx cy : ℚ) (p : PipeStats) :
    ∀ e ∈ (stepExit cfg ts tid cx cy p).events, e.uid = p.pipe_uid := by
  simp only [stepExit]
  split_ifs <;> simp [PipeEvent.uid]

theorem stepEnter_t_enter_mono (cfg : PipeFlowFSM) (ts : ℚ) (tid : Int)
    (cx cy : ℚ) (armed : Bool) (p : PipeStats) (h : p.t_loadcell_enter ≠ none) :
    (stepEnter cfg ts tid cx cy armed p).p.t_loadcell_enter
      = p.t_loadcell_enter := by
  simp only [stepEnter]
  split_ifs with h1 h2 h3 h4 <;> first | rfl | (exact absurd h1.2 h)

/-! ## C2: the PipeStats record invariants -/

/-- The record invariants claimed for `PipeStats`:
entry latched ⇒ origin is "caster"; exit latched ⇒ entry latched. -/
def PipeInv (p : PipeStats) : Prop :=
  (p.t_loadcell_enter ≠ none → p.origin = some "caster")
    ∧ (p.t_loadcell_exit ≠ none → p.t_loadcell_enter ≠ none)

instance (p : PipeStats) : Decidable (PipeInv p) := by
  unfold PipeInv; infer_instance

theorem stepMissing_inv (f : Int) (p : PipeStats) (h : PipeInv p) :
    PipeInv (stepMissing f p) := by
  rw [stepMissing_eq]
  simpa [PipeInv] using h

theorem stepSeen_inv (f : Int) (ts : ℚ) (tid : Int) (p : PipeStats)
    (h : PipeInv p) : PipeInv (stepSeen f ts tid p) := by
  simp only [stepSeen]
  simpa [PipeInv] using h

theorem stepOrigin_inv (cfg : PipeFlowFSM) (ts cx cy : ℚ) (p : PipeStats)
    (h : PipeInv p) : PipeInv (stepOrigin cfg ts cx cy p) := by
  constructor
  · intro he
    rw [stepOrigin_t_enter] at he
    exact stepOrigin_origin_mono cfg ts cx cy p (h.1 he)
  · intro hx
    rw [stepOrigin_t_exit] at hx
    rw [stepOrigin_t_enter]
    exact h.2 hx

theorem stepConf_inv (cfg : PipeFlowFSM) (c cx cy : ℚ) (p : PipeStats)
    (h : PipeInv p) : PipeInv (stepConf cfg c cx cy p) := by
  constructor
  · intro he
    rw [stepConf_t_enter] at he
    rw [stepConf_origin]
    exact h.1 he
  · intro hx
    rw [stepConf_t_exit] at hx
    rw [stepConf_t_enter]
    exact h.2 hx

theorem stepEnter_inv (cfg : PipeFlowFSM) (ts : ℚ) (tid : Int) (cx cy : ℚ)
    (armed : Bool) (p : PipeStats) (h : PipeInv p) :
    PipeInv (stepEnter cfg ts tid cx cy armed p).p := by
  constructor
  · intro he
    rw [stepEnter_origin]
    rcases stepEnter_t_enter_inv cfg ts tid cx cy armed p he with h1 | h1
    · exact h.1 h1
    · exact h1
  · intro hx
    rw [stepEnter_t_exit] at hx
    have hpre := h.2 hx
    rw [stepEnter_t_enter_mono cfg ts tid cx cy armed p hpre]
    exact hpre

theorem stepExit_inv (cfg : PipeFlowFSM) (ts : ℚ) (tid : Int) (cx cy : ℚ)
    (p : PipeStats) (h : PipeInv p) :
    PipeInv (stepExit cfg ts tid cx cy p).p := by
  constructor
  · intro he
    rw [stepExit_t_enter] at he
    rw [stepExit_origin]
    exact h.1 he
  · intro hx
    rw [stepExit_t_enter]
    rcases stepExit_t_exit_inv cfg ts tid cx cy p hx with h1 | h1
    · exact h.2 h1
    · exact h1

theorem freshPipe_inv (uid : Nat) (tid : Int) (f : Int) (ts : ℚ) :
    PipeInv (freshPipe uid tid f ts) := by
  simp [PipeInv, freshPipe]

theorem processRecord_inv (cfg : PipeFlowFSM) (f : Int) (ts : ℚ) (tid : Int)
    (cx cy conf : ℚ) (armed : Bool) (p0 : PipeStats) (h : PipeInv p0) :
    PipeInv (processRecord cfg f ts tid cx cy conf armed p0).p := by
  simp only [processRecord]
  exact stepExit_inv _ _ _ _ _ _
    (stepEnter_inv _ _ _ _ _ _ _
      (stepConf_inv _ _ _ _ _
        (stepOrigin_inv _ _ _ _ _
          (stepSeen_inv _ _ _ _ (stepMissing_inv _ _ h)))))

/-- Preservation of an invariant by a left fold. -/
theorem foldl_preserve {α σ : Type} (P : σ → Prop) (f : σ → α → σ)
    (h : ∀ s a, P s → P (f s a)) :
    ∀ (l : List α) (s : σ), P s → P (l.foldl f s) := by
  intro l
  induction l with
  | nil => intro s hs; exact hs
  | cons a l ih =>
    intro s hs
    exact ih _ (h s a hs)

theorem detStep_inv (cfg : PipeFlowFSM) (f : Int) (ts : ℚ) (acc : PipeAcc)
    (d : TrackDet)
    (h : (∀ kv ∈ acc.pipes, PipeInv kv.2) ∧ ∀ p ∈ acc.updated, PipeInv p) :
    (∀ kv ∈ (detStep cfg f ts acc d).pipes, PipeInv kv.2)
      ∧ ∀ p ∈ (detStep cfg f ts acc d).updated, PipeInv p := by
  obtain ⟨hp, hu⟩ := h
  unfold detStep
  split
  · exact ⟨hp, hu⟩
  · split
    · exact ⟨hp, hu⟩
    · rename_i tid htid
      have hinv : ∀ q, alistGet acc.pipes tid = some q → PipeInv q := by
        intro q hq
        exact hp (tid, q) (mem_of_alistGet hq)
      have hrec : PipeInv (match alistGet acc.pipes tid with
          | some p => p
          | none => freshPipe (acc.seq + 1) tid f ts) := by
        cases hq : alistGet acc.pipes tid with
        | some q => exact hinv q hq
        | none => exact freshPipe_inv _ _ _ _
      refine ⟨?_, ?_⟩
      · intro kv hkv
        rcases mem_alistSet_elim hkv with hmem | heq
        · exact hp kv hmem
        · rw [heq]
          exact processRecord_inv _ _ _ _ _ _ _ _ _ hrec
      · intro p hpmem
        rcases List.mem_append.mp hpmem with hmem | hmem
        · exact hu p hmem
        · rw [List.mem_singleton.mp hmem]
          exact processRecord_inv _ _ _ _ _ _ _ _ _ hrec

/-- Component views of `update` (definitional). -/
theorem update_fsm_pipes (fsm : PipeFlowFSM) (f : Int) (ts : ℚ)
    (dets : List TrackDet) :
    (fsm.update f ts dets).fsm.pipes
      = (detPass fsm f ts dets).pipes.filter (fun kv => !isStale fsm f kv) :=
  rfl

theorem update_updated (fsm : PipeFlowFSM) (f : Int) (ts : ℚ)
    (dets : List TrackDet) :
    (fsm.update f ts dets).updated
      = (detPass fsm f ts dets).updated
        ++ (staleOut fsm f ts (detPass fsm f ts dets).pipes).map
          (fun q => q.1) :=
  rfl

theorem update_events (fsm : PipeFlowFSM) (f : Int) (ts : ℚ)
    (dets : List TrackDet) :
    (fsm.update f ts dets).events
      = (detPass fsm f ts dets).events
        ++ (staleOut fsm f ts (detPass fsm f ts dets).pipes).map
          (fun q => q.2) :=
  rfl

theorem update_pulses (fsm : PipeFlowFSM) (f : Int) (ts : ℚ)
    (dets : List TrackDet) :
    (fsm.update f ts dets).pulses = (detPass fsm f ts dets).pulses :=
  rfl

theorem update_armed (fsm : PipeFlowFSM) (f : Int) (ts : ℚ)
    (dets : List TrackDet) :
    (fsm.update f ts dets).fsm.loadcell_armed = (detPass fsm f ts dets).armed :=
  rfl

theorem update_streak (fsm : PipeFlowFSM) (f : Int) (ts : ℚ)
    (dets : List TrackDet) :
    (fsm.update f ts dets).fsm.loadcell_empty_streak = rearmStreak fsm dets :=
  rfl

theorem update_seq (fsm : PipeFlowFSM) (f : Int) (ts : ℚ)
    (dets : List TrackDet) :
    (fsm.update f ts dets).fsm.seq = (detPass fsm f ts dets).seq :=
  rfl

/-- `update` leaves the configuration fields untouched. -/
theorem update_config (fsm : PipeFlowFSM) (f : Int) (ts : ℚ)
    (dets : List TrackDet) :
    (fsm.update f ts dets).fsm.contains = fsm.contains
      ∧ (fsm.update f ts dets).fsm.pulse_tag = fsm.pulse_tag
      ∧ (fsm.update f ts dets).fsm.pulse_ms = fsm.pulse_ms
      ∧ (fsm.update f ts dets).fsm.origin_confirm_frames
          = fsm.origin_confirm_frames
      ∧ (fsm.update f ts dets).fsm.loadcell_enter_confirm_frames
          = fsm.loadcell_enter_confirm_frames
      ∧ (fsm.update f ts dets).fsm.loadcell_exit_confirm_frames
          = fsm.loadcell_exit_confirm_frames
      ∧ (fsm.update f ts dets).fsm.stale_track_frames = fsm.stale_track_frames
      ∧ (fsm.update f ts dets).fsm.rearm_empty_frames
          = fsm.rearm_empty_frames :=
  ⟨rfl, rfl, rfl, rfl, rfl, rfl, rfl, rfl⟩

/-- The records and events synthesized by the stale pass: each comes from a
member of the map, already entered, not yet exited. -/
theorem staleOut_mem (fsm : PipeFlowFSM) (f : Int) (ts : ℚ)
    (pipes : List (Int × PipeStats)) (q : PipeStats × PipeEvent)
    (hq : q ∈ staleOut fsm f ts pipes) :
    ∃ kv ∈ pipes, isStale fsm f kv = true
      ∧ kv.2.t_loadcell_enter ≠ none ∧ kv.2.t_loadcell_exit = none
      ∧ q = ({ kv.2 with t_loadcell_exit := some ts, state := "parked" },
          PipeEvent.exited kv.2.pipe_uid kv.1 ts) := by
  unfold staleOut at hq
  rcases List.mem_filterMap.mp hq with ⟨kv, hkv, hcond⟩
  have hstale := List.of_mem_filter hkv
  have hmem := List.mem_of_mem_filter hkv
  refine ⟨kv, hmem, hstale, ?_⟩
  by_cases hc : kv.2.t_loadcell_enter ≠ none ∧ kv.2.t_loadcell_exit = none
  · rw [if_pos hc] at hcond
    exact ⟨hc.1, hc.2, (Option.some_injective _ hcond).symm⟩
  · rw [if_neg hc] at hcond
    exact absurd hcond (by simp)

theorem detPass_inv (fsm : PipeFlowFSM) (f : Int) (ts : ℚ)
    (dets : List TrackDet) (h : ∀ kv ∈ fsm.pipes, PipeInv kv.2) :
    (∀ kv ∈ (detPass fsm f ts dets).pipes, PipeInv kv.2)
      ∧ ∀ p ∈ (detPass fsm f ts dets).updated, PipeInv p := by
  unfold detPass
  exact foldl_preserve
    (fun acc : PipeAcc =>
      (∀ kv ∈ acc.pipes, PipeInv kv.2) ∧ ∀ p ∈ acc.updated, PipeInv p)
    (detStep fsm f ts) (fun s a hs => detStep_inv fsm f ts s a hs)
    dets _ ⟨h, by intro p hp; simp at hp⟩

/-- C2: both record invariants hold for every record held in the FSM map and
for every record returned in `updated` after a call to `update`, provided
they held before the call (they are preserved by every tick, the stale
reclamation pass included). -/
theorem pipeflow_invariants_preserved (fsm : PipeFlowFSM) (f : Int) (ts : ℚ)
    (dets : List TrackDet) (h : ∀ kv ∈ fsm.pipes, PipeInv kv.2) :
    (∀ kv ∈ (fsm.update f ts dets).fsm.pipes, PipeInv kv.2)
      ∧ ∀ p ∈ (fsm.update f ts dets).updated, PipeInv p := by
  obtain ⟨hp1, hu1⟩ := detPass_inv fsm f ts dets h
  constructor
  · intro kv hkv
    rw [update_fsm_pipes] at hkv
    exact hp1 kv (List.mem_of_mem_filter hkv)
  · intro p hpmem
    rw [update_updated] at hpmem
    rcases List.mem_append.mp hpmem with hmem | hmem
    · exact hu1 p hmem
    · rcases List.mem_map.mp hmem with ⟨q, hq, hq1⟩
      rcases staleOut_mem fsm f ts _ q hq with ⟨kv, hkv, _, henter, _, hqeq⟩
      have hkinv := hp1 kv hkv
      rw [← hq1, hqeq]
      constructor
      · intro _
        exact hkinv.1 henter
      · intro _
        simpa using henter

/-- Witness for C2: a concrete one-record state satisfying the invariants,
updated on a frame with one detection; both conclusions evaluate. -/
theorem pipeflow_invariants_preserved_witness :
    (∀ kv ∈ ([(1, { pipe_uid := 1, tracker_id := 1 : PipeStats })]
        : List (Int × PipeStats)), PipeInv kv.2)
      ∧ ((∀ kv ∈ (PipeFlowFSM.update
            { contains := fun n _ _ => n == RoiName.CASTER5_ORIGIN
              pulse_tag := "trig", pulse_ms := 200
              pipes := [(1, { pipe_uid := 1, tracker_id := 1 })], seq := 1 }
            5 2 [⟨"pipe", 1, some 1, ⟨0, 0, 2, 2⟩⟩]).fsm.pipes, PipeInv kv.2)
          ∧ ∀ p ∈ (PipeFlowFSM.update
            { contains := fun n _ _ => n == RoiName.CASTER5_ORIGIN
              pulse_tag := "trig", pulse_ms := 200
              pipes := [(1, { pipe_uid := 1, tracker_id := 1 })], seq := 1 }
            5 2 [⟨"pipe", 1, some 1, ⟨0, 0, 2, 2⟩⟩]).updated, PipeInv p) :=
  ⟨by decide,
    pipeflow_invariants_preserved _ 5 2 _ (by decide)⟩


/-! ## Projection lemmas for the remaining steps of the pipeline -/

@[simp] theorem stepMissing_pipe_uid (f : Int) (p : PipeStats) :
    (stepMissing f p).pipe_uid = p.pipe_uid := by rw [stepMissing_eq]

@[simp] theorem stepMissing_counted (f : Int) (p : PipeStats) :
    (stepMissing f p).counted = p.counted := by rw [stepMissing_eq]

@[simp] theorem stepMissing_origin (f : Int) (p : PipeStats) :
    (stepMissing f p).origin = p.origin := by rw [stepMissing_eq]

@[simp] theorem stepMissing_t_enter (f : Int) (p : PipeStats) :
    (stepMissing f p).t_loadcell_enter = p.t_loadcell_enter := by
  rw [stepMissing_eq]

@[simp] theorem stepMissing_t_exit (f : Int) (p : PipeStats) :
    (stepMissing f p).t_loadcell_exit = p.t_loadcell_exit := by
  rw [stepMissing_eq]

@[simp] theorem stepMissing_loadcell_hits (f : Int) (p : PipeStats) :
    (stepMissing f p).loadcell_hits = p.loadcell_hits := by rw [stepMissing_eq]

@[simp] theorem stepMissing_frames_seen (f : Int) (p : PipeStats) :
    (stepMissing f p).frames_seen = p.frames_seen := by rw [stepMissing_eq]

@[simp] theorem stepSeen_pipe_uid (f : Int) (ts : ℚ) (tid : Int)
    (p : PipeStats) : (stepSeen f ts tid p).pipe_uid = p.pipe_uid := rfl

@[simp] theorem stepSeen_counted (f : Int) (ts : ℚ) (tid : Int)
    (p : PipeStats) : (stepSeen f ts tid p).counted = p.counted := rfl

@[simp] theorem stepSeen_origin (f : Int) (ts : ℚ) (tid : Int)
    (p : PipeStats) : (stepSeen f ts tid p).origin = p.origin := rfl

@[simp] theorem stepSeen_t_enter (f : Int) (ts : ℚ) (tid : Int)
    (p : PipeStats) :
    (stepSeen f ts tid p).t_loadcell_enter = p.t_loadcell_enter := rfl

@[simp] theorem stepSeen_t_exit (f : Int) (ts : ℚ) (tid : Int)
    (p : PipeStats) :
    (stepSeen f ts tid p).t_loadcell_exit = p.t_loadcell_exit := rfl

@[simp] theorem stepSeen_loadcell_hits (f : Int) (ts : ℚ) (tid : Int)
    (p : PipeStats) :
    (stepSeen f ts tid p).loadcell_hits = p.loadcell_hits := rfl

@[simp] theorem stepSeen_frames_missing (f : Int) (ts : ℚ) (tid : Int)
    (p : PipeStats) :
    (stepSeen f ts tid p).frames_missing = p.frames_missing := rfl

@[simp] theorem stepSeen_last_seen_frame (f : Int) (ts : ℚ) (tid : Int)
    (p : PipeStats) : (stepSeen f ts tid p).last_seen_frame = f := rfl

/-! ## Characterization of the whole per-detection pipeline -/

theorem processRecord_pipe_uid (cfg : PipeFlowFSM) (f : Int) (ts : ℚ)
    (tid : Int) (cx cy conf : ℚ) (armed : Bool) (p0 : PipeStats) :
    (processRecord cfg f ts tid cx cy conf armed p0).p.pipe_uid
      = p0.pipe_uid := by
  simp only [processRecord]
  rw [stepExit_pipe_uid, stepEnter_pipe_uid, stepConf_pipe_uid,
    stepOrigin_pipe_uid]
  simp

theorem processRecord_last_seen_frame (cfg : PipeFlowFSM) (f : Int) (ts : ℚ)
    (tid : Int) (cx cy conf : ℚ) (armed : Bool) (p0 : PipeStats) :
    (processRecord cfg f ts tid cx cy conf armed p0).p.last_seen_frame = f := by
  simp only [processRecord]
  rw [stepExit_last_seen_frame, stepEnter_last_seen_frame,
    stepConf_last_seen_frame, stepOrigin_last_seen_frame]
  simp

theorem processRecord_frames_missing (cfg : PipeFlowFSM) (f : Int) (ts : ℚ)
    (tid : Int) (cx cy conf : ℚ) (armed : Bool) (p0 : PipeStats) :
    (processRecord cfg f ts tid cx cy conf armed p0).p.frames_missing
      = if 0 < p0.frames_seen ∧ 1 < f - p0.last_seen_frame then
          p0.frames_missing + (f - p0.last_seen_frame - 1)
        else p0.frames_missing := by
  simp only [processRecord]
  rw [stepExit_frames_missing, stepEnter_frames_missing,
    stepConf_frames_missing, stepOrigin_frames_missing, stepSeen_frames_missing,
    stepMissing_eq]

theorem processRecord_counted_mono (cfg : PipeFlowFSM) (f : Int) (ts : ℚ)
    (tid : Int) (cx cy conf : ℚ) (armed : Bool) (p0 : PipeStats)
    (h : p0.counted = true) :
    (processRecord cfg f ts tid cx cy conf armed p0).p.counted = true := by
  simp only [processRecord]
  rw [stepExit_counted]
  apply stepEnter_counted_mono
  rw [stepConf_counted, stepOrigin_counted]
  simp [h]

theorem processRecord_counted_no_pulse (cfg : PipeFlowFSM) (f : Int) (ts : ℚ)
    (tid : Int) (cx cy conf : ℚ) (armed : Bool) (p0 : PipeStats)
    (h : p0.counted = true) :
    (processRecord cfg f ts tid cx cy conf armed p0).pulses = [] := by
  simp only [processRecord]
  apply stepEnter_counted_no_pulse
  rw [stepConf_counted, stepOrigin_counted]
  simp [h]

theorem processRecord_pulses_shape (cfg : PipeFlowFSM) (f : Int) (ts : ℚ)
    (tid : Int) (cx cy conf : ℚ) (armed : Bool) (p0 : PipeStats) :
    (processRecord cfg f ts tid cx cy conf armed p0).pulses = []
      ∨ (processRecord cfg f ts tid cx cy conf armed p0).pulses
          = [⟨cfg.pulse_tag, cfg.pulse_ms, p0.pipe_uid⟩] := by
  simp only [processRecord]
  have hu : (stepConf cfg conf cx cy (stepOrigin cfg ts cx cy
      (stepSeen f ts tid (stepMissing f p0)))).pipe_uid = p0.pipe_uid := by
    rw [stepConf_pipe_uid, stepOrigin_pipe_uid]; simp
  rcases stepEnter_pulses_shape cfg ts tid cx cy armed
      (stepConf cfg conf cx cy (stepOrigin cfg ts cx cy
        (stepSeen f ts tid (stepMissing f p0)))) with hsh | hsh
  · left; exact hsh
  · right; rw [hsh, hu]

theorem processRecord_events_uid (cfg : PipeFlowFSM) (f : Int) (ts : ℚ)
    (tid : Int) (cx cy conf : ℚ) (armed : Bool) (p0 : PipeStats) :
    ∀ e ∈ (processRecord cfg f ts tid cx cy conf armed p0).events,
      e.uid = p0.pipe_uid := by
  simp only [processRecord]
  intro e he
  have hu : (stepConf cfg conf cx cy (stepOrigin cfg ts cx cy
      (stepSeen f ts tid (stepMissing f p0)))).pipe_uid = p0.pipe_uid := by
    rw [stepConf_pipe_uid, stepOrigin_pipe_uid]; simp
  rcases List.mem_append.mp he with hm | hm
  · rw [← hu]
    exact stepEnter_events_uid _ _ _ _ _ _ _ e hm
  · rw [← hu, ← stepEnter_pipe_uid cfg ts tid cx cy armed _]
    exact stepExit_events_uid _ _ _ _ _ _ e hm

/-! ## C1: the `counted` latch suppresses all further pulses for a uid -/

/-- Map well-formedness: every live record's uid was drawn from the
sequence counter. -/
def WFseq (fsm : PipeFlowFSM) : Prop :=
  ∀ kv ∈ fsm.pipes, kv.2.pipe_uid ≤ fsm.seq

/-- Every live record carrying uid `u` has its `counted` latch set. -/
def CountedAt (fsm : PipeFlowFSM) (u : Nat) : Prop :=
  ∀ kv ∈ fsm.pipes, kv.2.pipe_uid = u → kv.2.counted = true

instance (fsm : PipeFlowFSM) : Decidable (WFseq fsm) := by
  unfold WFseq; infer_instance

instance (fsm : PipeFlowFSM) (u : Nat) : Decidable (CountedAt fsm u) := by
  unfold CountedAt; infer_instance

/-- Loop invariant of the detection pass for claim C1. -/
def AccC1 (u : Nat) (acc : PipeAcc) : Prop :=
  (∀ kv ∈ acc.pipes, kv.2.pipe_uid ≤ acc.seq)
    ∧ (∀ kv ∈ acc.pipes, kv.2.pipe_uid = u → kv.2.counted = true)
    ∧ u ≤ acc.seq
    ∧ ∀ pl ∈ acc.pulses, pl.uid ≠ u

theorem detStep_c1 (cfg : PipeFlowFSM) (f : Int) (ts : ℚ) (u : Nat)
    (acc : PipeAcc) (d : TrackDet) (h : AccC1 u acc) :
    AccC1 u (detStep cfg f ts acc d) := by
  obtain ⟨hseq, hcnt, hu, hpul⟩ := h
  simp only [detStep]
  split
  · exact ⟨hseq, hcnt, hu, hpul⟩
  · split
    · exact ⟨hseq, hcnt, hu, hpul⟩
    · rename_i tid htid
      cases hq : alistGet acc.pipes tid with
      | some q =>
        dsimp only
        have hqle : q.pipe_uid ≤ acc.seq := hseq (tid, q) (mem_of_alistGet hq)
        have hqcnt : q.pipe_uid = u → q.counted = true :=
          hcnt (tid, q) (mem_of_alistGet hq)
        refine ⟨?_, ?_, hu, ?_⟩
        · intro kv hkv
          rcases mem_alistSet_elim hkv with hm | hm
          · exact hseq kv hm
          · rw [hm]
            simpa [processRecord_pipe_uid] using hqle
        · intro kv hkv
          rcases mem_alistSet_elim hkv with hm | hm
          · exact hcnt kv hm
          · rw [hm]
            intro huid
            rw [processRecord_pipe_uid] at huid
            exact processRecord_counted_mono _ _ _ _ _ _ _ _ _ (hqcnt huid)
        · intro pl hpl
          rcases List.mem_append.mp hpl with hm | hm
          · exact hpul pl hm
          · rcases processRecord_pulses_shape cfg f ts tid
                (d.bbox.centroid).1 (d.bbox.centroid).2 d.conf acc.armed q
              with hsh | hsh
            · rw [hsh] at hm; simp at hm
            · rw [hsh] at hm
              rw [List.mem_singleton.mp hm]
              intro hud
              have hqc : q.counted = true := hqcnt hud
              have hz := processRecord_counted_no_pulse cfg f ts tid
                (d.bbox.centroid).1 (d.bbox.centroid).2 d.conf acc.armed q hqc
              rw [hz] at hsh
              simp at hsh
      | none =>
        dsimp only
        refine ⟨?_, ?_, show u ≤ acc.seq + 1 by omega, ?_⟩
        · intro kv hkv
          rcases mem_alistSet_elim hkv with hm | hm
          · exact le_trans (hseq kv hm) (show acc.seq ≤ acc.seq + 1 by omega)
          · rw [hm]
            simp [processRecord_pipe_uid, freshPipe]
        · intro kv hkv
          rcases mem_alistSet_elim hkv with hm | hm
          · exact hcnt kv hm
          · rw [hm]
            intro huid
            rw [processRecord_pipe_uid] at huid
            simp [freshPipe] at huid
            omega
        · intro pl hpl
          rcases List.mem_append.mp hpl with hm | hm
          · exact hpul pl hm
          · rcases processRecord_pulses_shape cfg f ts tid
                (d.bbox.centroid).1 (d.bbox.centroid).2 d.conf acc.armed
                (freshPipe (acc.seq + 1) tid f ts)
              with hsh | hsh
            · rw [hsh] at hm; simp at hm
            · rw [hsh] at hm
              rw [List.mem_singleton.mp hm]
              simp [freshPipe]
              omega

theorem detPass_c1 (fsm : PipeFlowFSM) (f : Int) (ts : ℚ)
    (dets : List TrackDet) (u : Nat) (hwf : WFseq fsm)
    (hcnt : CountedAt fsm u) (hu : u ≤ fsm.seq) :
    AccC1 u (detPass fsm f ts dets) := by
  unfold detPass
  exact foldl_preserve (AccC1 u) (detStep fsm f ts)
    (fun s a hs => detStep_c1 fsm f ts u s a hs) dets _
    ⟨hwf, hcnt, hu, by intro pl hpl; simp at hpl⟩

/-- One tick preserves the C1 state invariant and issues no pulse for `u`. -/
theorem update_c1 (fsm : PipeFlowFSM) (u : Nat) (f : Int) (ts : ℚ)
    (dets : List TrackDet) (hwf : WFseq fsm) (hcnt : CountedAt fsm u)
    (hu : u ≤ fsm.seq) :
    (WFseq (fsm.update f ts dets).fsm ∧ CountedAt (fsm.update f ts dets).fsm u
        ∧ u ≤ (fsm.update f ts dets).fsm.seq)
      ∧ ∀ pl ∈ (fsm.update f ts dets).pulses, pl.uid ≠ u := by
  obtain ⟨haseq, hacnt, hau, hapul⟩ := detPass_c1 fsm f ts dets u hwf hcnt hu
  refine ⟨⟨?_, ?_, ?_⟩, ?_⟩
  · intro kv hkv
    rw [update_fsm_pipes] at hkv
    rw [update_seq]
    exact haseq kv (List.mem_of_mem_filter hkv)
  · intro kv hkv
    rw [update_fsm_pipes] at hkv
    exact hacnt kv (List.mem_of_mem_filter hkv)
  · rw [update_seq]; exact hau
  · intro pl hpl
    rw [update_pulses] at hpl
    exact hapul pl hpl

/-- C1: once a live record with uid `u` has its `counted` latch set (and
every record of the map is well-formed w.r.t. the uid sequence), no sequence
of subsequent `update` calls — whatever their detections, however long the
pipe stays inside the load-cell ROI — ever issues another PLC pulse for
that uid. -/
theorem pipeflow_counted_latch_no_repulse (fsm : PipeFlowFSM) (u : Nat)
    (inputs : List (Int × ℚ × List TrackDet)) (hwf : WFseq fsm)
    (hcnt : CountedAt fsm u)
    (hex : ∃ kv ∈ fsm.pipes, kv.2.pipe_uid = u ∧ kv.2.counted = true) :
    ∀ pl ∈ (fsm.updateMany inputs).2, pl.uid ≠ u := by
  have hu : u ≤ fsm.seq := by
    rcases hex with ⟨kv, hkv, hkvu, _⟩
    rw [← hkvu]
    exact hwf kv hkv
  clear hex
  unfold PipeFlowFSM.updateMany
  suffices hgen : ∀ (ins : List (Int × ℚ × List TrackDet)) (g : PipeFlowFSM)
      (acc : List Pulse), WFseq g → CountedAt g u → u ≤ g.seq →
      (∀ pl ∈ acc, pl.uid ≠ u) →
      ∀ pl ∈ (ins.foldl updateManyStep (g, acc)).2, pl.uid ≠ u by
    exact hgen inputs fsm [] hwf hcnt hu (by intro pl hpl; simp at hpl)
  intro ins
  induction ins with
  | nil =>
    intro g acc _ _ _ hacc
    simpa using hacc
  | cons i rest ih =>
    intro g acc hg1 hg2 hg3 hacc
    obtain ⟨⟨hw1, hw2, hw3⟩, hpulse⟩ :=
      update_c1 g u i.1 i.2.1 i.2.2 hg1 hg2 hg3
    rw [List.foldl_cons, updateManyStep_eq]
    refine ih _ _ hw1 hw2 hw3 ?_
    intro pl hpl
    rcases List.mem_append.mp hpl with hm | hm
    · exact hacc pl hm
    · exact hpulse pl hm

/-- A counted record sitting on the load-cell, for the C1 witness. -/
def c1Record : PipeStats :=
  { pipe_uid := 1
    tracker_id := 1
    origin := some "caster"
    t_loadcell_enter := some 1
    counted := true }

/-- A one-record FSM state, disarmed, for the C1 witness; the oracle keeps
the pipe's centroid inside the load-cell ROI on every frame. -/
def c1FSM : PipeFlowFSM :=
  { contains := fun n _ _ => n == RoiName.LOADCELL
    pulse_tag := "trig"
    pulse_ms := 200
    pipes := [(1, c1Record)]
    seq := 1
    loadcell_armed := false }

/-- Witness for C1: a concrete state with one counted record whose pipe
keeps sitting inside the load-cell ROI for two further frames. -/
theorem pipeflow_counted_latch_no_repulse_witness :
    (WFseq c1FSM ∧ CountedAt c1FSM 1)
      ∧ ∀ pl ∈ (c1FSM.updateMany
          [(2, 2, [⟨"pipe", 1, some 1, ⟨0, 0, 2, 2⟩⟩]),
           (3, 3, [⟨"pipe", 1, some 1, ⟨0, 0, 2, 2⟩⟩])]).2, pl.uid ≠ 1 :=
  ⟨⟨by decide, by decide⟩,
    pipeflow_counted_latch_no_repulse c1FSM 1 _ (by decide) (by decide)
      ⟨(1, c1Record), by decide, by decide, by decide⟩⟩

/-! ## Pointwise evaluation of `detStep` -/

theorem detStep_not_pipe (cfg : PipeFlowFSM) (f : Int) (ts : ℚ)
    (acc : PipeAcc) (d : TrackDet) (h : d.cls_name ≠ "pipe") :
    detStep cfg f ts acc d = acc := by
  simp [detStep, h]

theorem detStep_untracked (cfg : PipeFlowFSM) (f : Int) (ts : ℚ)
    (acc : PipeAcc) (d : TrackDet) (h : d.track_id = none) :
    detStep cfg f ts acc d = acc := by
  unfold detStep
  split
  · rfl
  · rw [h]

theorem detStep_known (cfg : PipeFlowFSM) (f : Int) (ts : ℚ) (acc : PipeAcc)
    (d : TrackDet) (tid : Int) (p : PipeStats)
    (hcls : d.cls_name = "pipe") (htid : d.track_id = some tid)
    (hget : alistGet acc.pipes tid = some p) :
    detStep cfg f ts acc d =
      { pipes := alistSet acc.pipes tid
          (processRecord cfg f ts tid (d.bbox.centroid).1 (d.bbox.centroid).2
            d.conf acc.armed p).p
        seq := acc.seq
        armed := (processRecord cfg f ts tid (d.bbox.centroid).1
          (d.bbox.centroid).2 d.conf acc.armed p).armed
        updated := acc.updated ++ [(processRecord cfg f ts tid
          (d.bbox.centroid).1 (d.bbox.centroid).2 d.conf acc.armed p).p]
        events := acc.events ++ (processRecord cfg f ts tid
          (d.bbox.centroid).1 (d.bbox.centroid).2 d.conf acc.armed p).events
        pulses := acc.pulses ++ (processRecord cfg f ts tid
          (d.bbox.centroid).1 (d.bbox.centroid).2 d.conf acc.armed p).pulses } := by
  simp [detStep, hcls, htid, hget]

theorem detStep_fresh (cfg : PipeFlowFSM) (f : Int) (ts : ℚ) (acc : PipeAcc)
    (d : TrackDet) (tid : Int)
    (hcls : d.cls_name = "pipe") (htid : d.track_id = some tid)
    (hget : alistGet acc.pipes tid = none) :
    detStep cfg f ts acc d =
      { pipes := alistSet acc.pipes tid
          (processRecord cfg f ts tid (d.bbox.centroid).1 (d.bbox.centroid).2
            d.conf acc.armed (freshPipe (acc.seq + 1) tid f ts)).p
        seq := acc.seq + 1
        armed := (processRecord cfg f ts tid (d.bbox.centroid).1
          (d.bbox.centroid).2 d.conf acc.armed
          (freshPipe (acc.seq + 1) tid f ts)).armed
        updated := acc.updated ++ [(processRecord cfg f ts tid
          (d.bbox.centroid).1 (d.bbox.centroid).2 d.conf acc.armed
          (freshPipe (acc.seq + 1) tid f ts)).p]
        events := acc.events ++ (processRecord cfg f ts tid
          (d.bbox.centroid).1 (d.bbox.centroid).2 d.conf acc.armed
          (freshPipe (acc.seq + 1) tid f ts)).events
        pulses := acc.pulses ++ (processRecord cfg f ts tid
          (d.bbox.centroid).1 (d.bbox.centroid).2 d.conf acc.armed
          (freshPipe (acc.seq + 1) tid f ts)).pulses } := by
  simp [detStep, hcls, htid, hget]

/-- `find?`-based lookup survives a filter that keeps the found binding
(filtering preserves relative order, and entries dropped before the first
match never matched). -/
theorem alistGet_filter {α β : Type} [BEq α] [LawfulBEq α]
    {l : List (α × β)} (q : α × β → Bool) {k : α} {v : β}
    (hget : alistGet l k = some v) (hq : q (k, v) = true) :
    alistGet (l.filter q) k = some v := by
  induction l with
  | nil => simp [alistGet] at hget
  | cons kv rest ih =>
    by_cases hk : (kv.1 == k) = true
    · have hkv : kv = (k, v) := by
        unfold alistGet at hget
        rw [find?_cons_true (fun kv => kv.1 == k) kv rest hk] at hget
        have h2 : kv.2 = v := by simpa using hget
        have h1 : kv.1 = k := eq_of_beq hk
        cases kv; simp_all
      subst hkv
      rw [List.filter_cons_of_pos hq]
      unfold alistGet
      rw [find?_cons_true (fun kv => kv.1 == k) (k, v) _ (by simp)]
      rfl
    · have hk' : (kv.1 == k) = false := by simpa using hk
      have hrest : alistGet rest k = some v := by
        unfold alistGet at hget ⊢
        rwa [find?_cons_false (fun kv => kv.1 == k) kv rest hk'] at hget
      by_cases hqkv : q kv = true
      · rw [List.filter_cons_of_pos hqkv]
        unfold alistGet
        rw [find?_cons_false (fun kv => kv.1 == k) kv _ hk']
        exact ih hrest
      · rw [List.filter_cons_of_neg (by simpa using hqkv)]
        exact ih hrest

/-! ## C9: missing-frame gap accounting -/

/-- A one-record state for C9: the record was last seen at frame 2 and has
been seen once; the pipe is detected again at frame 5 (a gap of 3 > 1). -/
def c9FSM : PipeFlowFSM :=
  { contains := fun _ _ _ => false
    pulse_tag := "trig"
    pulse_ms := 200
    pipes := [(7, { pipe_uid := 1, tracker_id := 7, frames_seen := 1
                    last_seen_frame := 2 })]
    seq := 1 }

/-- Counterexample to C9 as stated: at frame 5 with last-seen frame 2 the
gap `f - l = 3` exceeds 1, but the update adds only 2 (= `f - l - 1`) to
`frames_missing`, not the gap 3. -/
theorem frames_missing_gap_counterexample :
    ((5 : Int) - 2 > 1
        ∧ (alistGet (c9FSM.update 5 3 [⟨"pipe", 1, some 7, ⟨0, 0, 2, 2⟩⟩]).fsm.pipes
            7).map (fun q => q.frames_missing) = some 2)
      ∧ ¬ ((alistGet (c9FSM.update 5 3
            [⟨"pipe", 1, some 7, ⟨0, 0, 2, 2⟩⟩]).fsm.pipes
          7).map (fun q => q.frames_missing) = some (0 + ((5 : Int) - 2))) := by
  decide

/-- C9 (amended): for an already-seen record detected again at frame `f`
after last being seen at frame `l`, if the gap `f - l` exceeds 1 then
`f - l - 1` (the number of frames actually missed, one less than the gap)
is added to `frames_missing`; otherwise `frames_missing` is unchanged. -/
theorem frames_missing_gap_amended (fsm : PipeFlowFSM) (f : Int) (ts : ℚ)
    (tid : Int) (p : PipeStats) (d : TrackDet)
    (hnd : (fsm.pipes.map Prod.fst).Nodup)
    (hmem : (tid, p) ∈ fsm.pipes)
    (hseen : 0 < p.frames_seen)
    (hcls : d.cls_name = "pipe") (htid : d.track_id = some tid) :
    (alistGet (fsm.update f ts [d]).fsm.pipes tid).map
        (fun q => q.frames_missing)
      = some (if 1 < f - p.last_seen_frame
          then p.frames_missing + (f - p.last_seen_frame - 1)
          else p.frames_missing) := by
  have hget : alistGet fsm.pipes tid = some p := alistGet_of_mem_nodup hnd hmem
  have hpass : detPass fsm f ts [d]
      = detStep fsm f ts ⟨fsm.pipes, fsm.seq, rearmArmed fsm [d], [], [], []⟩ d :=
    rfl
  set acc0 : PipeAcc := ⟨fsm.pipes, fsm.seq, rearmArmed fsm [d], [], [], []⟩
    with hacc0
  set r := processRecord fsm f ts tid (d.bbox.centroid).1 (d.bbox.centroid).2
    d.conf acc0.armed p with hr
  have hstep := detStep_known fsm f ts acc0 d tid p hcls htid hget
  have hpipes : (detPass fsm f ts [d]).pipes = alistSet fsm.pipes tid r.p := by
    rw [hpass, hstep]
  have hlast : r.p.last_seen_frame = f := processRecord_last_seen_frame _ _ _ _ _ _ _ _ _
  have hget2 : alistGet (alistSet fsm.pipes tid r.p) tid = some r.p :=
    alistGet_alistSet_self r.p hget
  have hsurv : (fun kv => !isStale fsm f kv) (tid, r.p) = true := by
    simp only [isStale, hlast]
    simp
  have hget3 : alistGet ((fsm.update f ts [d]).fsm.pipes) tid = some r.p := by
    rw [update_fsm_pipes, hpipes]
    exact alistGet_filter _ hget2 hsurv
  rw [hget3]
  have hfm := processRecord_frames_missing fsm f ts tid (d.bbox.centroid).1
    (d.bbox.centroid).2 d.conf acc0.armed p
  rw [← hr] at hfm
  rw [Option.map_some']
  rw [hfm]
  by_cases hgap : 1 < f - p.last_seen_frame
  · rw [if_pos ⟨hseen, hgap⟩, if_pos hgap]
  · rw [if_neg (by tauto), if_neg hgap]

/-- Witness for the amended C9 at a concrete state: gap of 3 adds 2. -/
theorem frames_missing_gap_amended_witness :
    ((c9FSM.pipes.map Prod.fst).Nodup
        ∧ (7, { pipe_uid := 1, tracker_id := 7, frames_seen := 1
                last_seen_frame := 2 : PipeStats }) ∈ c9FSM.pipes)
      ∧ (alistGet (c9FSM.update 5 3 [⟨"pipe", 1, some 7, ⟨0, 0, 2, 2⟩⟩]).fsm.pipes
          7).map (fun q => q.frames_missing)
        = some (if 1 < (5 : Int) - 2 then 0 + ((5 : Int) - 2 - 1) else 0) :=
  ⟨⟨by decide, by decide⟩,
    frames_missing_gap_amended c9FSM 5 3 7
      { pipe_uid := 1, tracker_id := 7, frames_seen := 1, last_seen_frame := 2 }
      ⟨"pipe", 1, some 7, ⟨0, 0, 2, 2⟩⟩ (by decide) (by decide)
      (by decide) (by decide) (by decide)⟩

/-! ## C6: stale-track reclamation -/

theorem foldl_preserve_mem {α σ : Type} (P : σ → Prop) (f : σ → α → σ)
    (l : List α) (h : ∀ s, ∀ a ∈ l, P s → P (f s a)) :
    ∀ s, P s → P (l.foldl f s) := by
  induction l with
  | nil => intro s hs; exact hs
  | cons a l ih =>
    intro s hs
    exact ih (fun s' a' ha' hs' => h s' a' (List.mem_cons_of_mem a ha') hs') _
      (h s a (List.mem_cons_self a l) hs)

/-- With distinct keys, two bindings of the same key have the same value. -/
theorem alist_key_unique {α β : Type} {l : List (α × β)} {k : α} {v : β}
    (hnd : (l.map Prod.fst).Nodup) (hv : (k, v) ∈ l) {kv : α × β}
    (hkv : kv ∈ l) (hk : kv.1 = k) : kv.2 = v := by
  have := List.inj_on_of_nodup_map hnd hkv hv (by simpa using hk)
  rw [this]

theorem mem_alistSet_of_ne {α β : Type} [BEq α] [LawfulBEq α]
    {l : List (α × β)} {k k' : α} {v : β} {v' : β} (h : k' ≠ k)
    (hmem : (k', v') ∈ l) : (k', v') ∈ alistSet l k v := by
  unfold alistSet
  split
  · have : (fun kv : α × β => if kv.1 == k then (k, v) else kv) (k', v')
        = (k', v') := by
      simp [h]
    rw [← this]
    exact List.mem_map_of_mem _ hmem
  · exact List.mem_append_left _ hmem

theorem alistGet_filter_none {α β : Type} [BEq α] [LawfulBEq α]
    {l : List (α × β)} (q : α × β → Bool) (k : α)
    (h : ∀ kv ∈ l, kv.1 = k → q kv = false) :
    alistGet (l.filter q) k = none := by
  induction l with
  | nil => rfl
  | cons kv rest ih =>
    have hrest := ih (fun kv' hkv' => h kv' (List.mem_cons_of_mem kv hkv'))
    by_cases hq : q kv = true
    · rw [List.filter_cons_of_pos hq]
      have hk : (kv.1 == k) = false := by
        rw [beq_eq_false_iff_ne]
        intro hEq
        exact absurd (h kv (List.mem_cons_self kv rest) hEq) (by simp [hq])
      unfold alistGet
      rw [find?_cons_false (fun kv => kv.1 == k) kv _ hk]
      exact hrest
    · rw [List.filter_cons_of_neg (by simpa using hq)]
      exact hrest

/-- The event filter used to state C6: synthesized exit events for a uid. -/
def exitFor (u : Nat) (e : PipeEvent) : Bool := e.isExit && e.uid == u

/-- One cons-step of `staleOut`. -/
theorem staleOut_cons (fsm : PipeFlowFSM) (f : Int) (ts : ℚ)
    (kv : Int × PipeStats) (L : List (Int × PipeStats)) :
    staleOut fsm f ts (kv :: L)
      = (if isStale fsm f kv = true then
          (if kv.2.t_loadcell_enter ≠ none ∧ kv.2.t_loadcell_exit = none then
            [({ kv.2 with t_loadcell_exit := some ts, state := "parked" },
               PipeEvent.exited kv.2.pipe_uid kv.1 ts)]
           else [])
         else []) ++ staleOut fsm f ts L := by
  unfold staleOut
  by_cases hs : isStale fsm f kv = true
  · rw [List.filter_cons_of_pos hs, if_pos hs, List.filterMap_cons]
    by_cases hc : kv.2.t_loadcell_enter ≠ none ∧ kv.2.t_loadcell_exit = none
    · rw [if_pos hc, if_pos hc]
      rfl
    · rw [if_neg hc, if_neg hc]
      rfl
  · rw [List.filter_cons_of_neg (by simpa using hs), if_neg hs]
    rfl

/-- Entries whose uid differs from `u` contribute no event surviving the
`exitFor u` filter. -/
theorem staleOut_filter_nil (fsm : PipeFlowFSM) (f : Int) (ts : ℚ)
    (L : List (Int × PipeStats)) (u : Nat)
    (h : ∀ kv ∈ L, kv.2.pipe_uid ≠ u) :
    ((staleOut fsm f ts L).map (fun q => q.2)).filter (exitFor u) = [] := by
  induction L with
  | nil => rfl
  | cons kv rest ih =>
    rw [staleOut_cons, List.map_append, List.filter_append,
      ih (fun kv' hkv' => h kv' (List.mem_cons_of_mem kv hkv'))]
    have hne : kv.2.pipe_uid ≠ u := h kv (List.mem_cons_self kv rest)
    split_ifs <;> simp [exitFor, PipeEvent.isExit, PipeEvent.uid, hne]

/-- With distinct keys, exactly one synthesized exit event with uid
`p.pipe_uid` comes out of the stale pass. -/
theorem staleOut_filter_exact (fsm : PipeFlowFSM) (f : Int) (ts : ℚ)
    (L : List (Int × PipeStats)) (tid : Int) (p : PipeStats)
    (hnd : (L.map Prod.fst).Nodup) (hmem : (tid, p) ∈ L)
    (hother : ∀ kv ∈ L, kv.1 ≠ tid → kv.2.pipe_uid ≠ p.pipe_uid)
    (hstale : isStale fsm f (tid, p) = true)
    (henter : p.t_loadcell_enter ≠ none) (hexit : p.t_loadcell_exit = none) :
    ((staleOut fsm f ts L).map (fun q => q.2)).filter (exitFor p.pipe_uid)
      = [PipeEvent.exited p.pipe_uid tid ts] := by
  induction L with
  | nil => simp at hmem
  | cons kv rest ih =>
    by_cases hk : kv.1 = tid
    · have hkv : kv = (tid, p) := by
        have h2 : kv.2 = p := alist_key_unique hnd hmem
          (List.mem_cons_self kv rest) hk
        cases kv; simp_all
      subst hkv
      rw [staleOut_cons, List.map_append, List.filter_append]
      rw [if_pos hstale, if_pos ⟨henter, hexit⟩]
      have hrestnil : ((staleOut fsm f ts rest).map (fun q => q.2)).filter
          (exitFor p.pipe_uid) = [] := by
        apply staleOut_filter_nil
        intro kv' hkv'
        have hk' : kv'.1 ≠ tid := by
          intro hEq
          have : tid ∈ rest.map Prod.fst :=
            List.mem_map.mpr ⟨kv', hkv', hEq⟩
          rw [List.map_cons, List.nodup_cons] at hnd
          exact hnd.1 this
        exact hother kv' (List.mem_cons_of_mem _ hkv') hk'
      rw [hrestnil]
      simp [exitFor, PipeEvent.isExit, PipeEvent.uid]
    · have hmem' : (tid, p) ∈ rest := by
        rcases List.mem_cons.mp hmem with hEq | hm
        · exact absurd (by rw [← hEq]) hk
        · exact hm
      have hne : kv.2.pipe_uid ≠ p.pipe_uid :=
        hother kv (List.mem_cons_self kv rest) hk
      rw [staleOut_cons, List.map_append, List.filter_append]
      have hhead : ((if isStale fsm f kv = true then
          (if kv.2.t_loadcell_enter ≠ none ∧ kv.2.t_loadcell_exit = none then
            [({ kv.2 with t_loadcell_exit := some ts, state := "parked" },
               PipeEvent.exited kv.2.pipe_uid kv.1 ts)]
           else [])
         else []).map (fun q : PipeStats × PipeEvent => q.2)).filter
          (exitFor p.pipe_uid) = [] := by
        split_ifs <;> simp [exitFor, PipeEvent.isExit, PipeEvent.uid, hne]
      rw [hhead]
      rw [List.nil_append]
      exact ih (by rw [List.map_cons, List.nodup_cons] at hnd; exact hnd.2)
        hmem' (fun kv' hkv' hk' =>
          hother kv' (List.mem_cons_of_mem _ hkv') hk')

/-- Loop invariant of the detection pass for claim C6: key-distinctness, the
untouched record, uid-uniqueness relative to it, the sequence bound, and
that no emitted event carries its uid. -/
def C6Acc (tid : Int) (p : PipeStats) (acc : PipeAcc) : Prop :=
  (acc.pipes.map Prod.fst).Nodup
    ∧ (tid, p) ∈ acc.pipes
    ∧ (∀ kv ∈ acc.pipes, kv.1 ≠ tid → kv.2.pipe_uid ≠ p.pipe_uid)
    ∧ (∀ kv ∈ acc.pipes, kv.2.pipe_uid ≤ acc.seq)
    ∧ p.pipe_uid ≤ acc.seq
    ∧ ∀ e ∈ acc.events, e.uid ≠ p.pipe_uid

theorem detStep_c6 (cfg : PipeFlowFSM) (f : Int) (ts : ℚ) (tid : Int)
    (p : PipeStats) (acc : PipeAcc) (d : TrackDet)
    (hd : ¬(d.cls_name = "pipe" ∧ d.track_id = some tid))
    (h : C6Acc tid p acc) : C6Acc tid p (detStep cfg f ts acc d) := by
  obtain ⟨hnd, hmem, hother, hseq, hu, hev⟩ := h
  by_cases hcls : d.cls_name = "pipe"
  · cases htid : d.track_id with
    | none => rw [detStep_untracked _ _ _ _ _ htid]; exact ⟨hnd, hmem, hother, hseq, hu, hev⟩
    | some tid' =>
      have hne : tid' ≠ tid := fun hEq => hd ⟨hcls, by rw [htid, hEq]⟩
      cases hget : alistGet acc.pipes tid' with
      | some q =>
        rw [detStep_known cfg f ts acc d tid' q hcls htid hget]
        have hqmem : (tid', q) ∈ acc.pipes := mem_of_alistGet hget
        have hquid : q.pipe_uid ≠ p.pipe_uid := hother (tid', q) hqmem hne
        have hruid : (processRecord cfg f ts tid' (d.bbox.centroid).1
            (d.bbox.centroid).2 d.conf acc.armed q).p.pipe_uid = q.pipe_uid :=
          processRecord_pipe_uid _ _ _ _ _ _ _ _ _
        refine ⟨alistSet_keys_nodup hnd, mem_alistSet_of_ne hne.symm hmem,
          ?_, ?_, hu, ?_⟩
        · intro kv hkv hk
          rcases mem_alistSet_elim hkv with hm | hm
          · exact hother kv hm hk
          · rw [hm]
            rw [hruid]
            exact hquid
        · intro kv hkv
          rcases mem_alistSet_elim hkv with hm | hm
          · exact hseq kv hm
          · rw [hm]
            rw [hruid]
            exact hseq (tid', q) hqmem
        · intro e he
          rcases List.mem_append.mp he with hm | hm
          · exact hev e hm
          · have := processRecord_events_uid cfg f ts tid' (d.bbox.centroid).1
              (d.bbox.centroid).2 d.conf acc.armed q e hm
            rw [this]
            exact hquid
      | none =>
        rw [detStep_fresh cfg f ts acc d tid' hcls htid hget]
        have hruid : (processRecord cfg f ts tid' (d.bbox.centroid).1
            (d.bbox.centroid).2 d.conf acc.armed
            (freshPipe (acc.seq + 1) tid' f ts)).p.pipe_uid = acc.seq + 1 :=
          processRecord_pipe_uid _ _ _ _ _ _ _ _ _
        refine ⟨alistSet_keys_nodup hnd, mem_alistSet_of_ne hne.symm hmem,
          ?_, ?_, show p.pipe_uid ≤ acc.seq + 1 by omega, ?_⟩
        · intro kv hkv hk
          rcases mem_alistSet_elim hkv with hm | hm
          · exact hother kv hm hk
          · rw [hm]
            show (processRecord cfg f ts tid' (d.bbox.centroid).1
              (d.bbox.centroid).2 d.conf acc.armed
              (freshPipe (acc.seq + 1) tid' f ts)).p.pipe_uid ≠ p.pipe_uid
            rw [hruid]
            omega
        · intro kv hkv
          rcases mem_alistSet_elim hkv with hm | hm
          · exact le_trans (hseq kv hm) (show acc.seq ≤ acc.seq + 1 by omega)
          · rw [hm]
            show (processRecord cfg f ts tid' (d.bbox.centroid).1
              (d.bbox.centroid).2 d.conf acc.armed
              (freshPipe (acc.seq + 1) tid' f ts)).p.pipe_uid ≤ acc.seq + 1
            rw [hruid]
        · intro e he
          rcases List.mem_append.mp he with hm | hm
          · exact hev e hm
          · have := processRecord_events_uid cfg f ts tid' (d.bbox.centroid).1
              (d.bbox.centroid).2 d.conf acc.armed
              (freshPipe (acc.seq + 1) tid' f ts) e hm
            rw [this]
            simp [freshPipe]
            omega
  · rw [detStep_not_pipe _ _ _ _ _ hcls]
    exact ⟨hnd, hmem, hother, hseq, hu, hev⟩

theorem detPass_c6 (fsm : PipeFlowFSM) (f : Int) (ts : ℚ)
    (dets : List TrackDet) (tid : Int) (p : PipeStats)
    (hnodet : ∀ d ∈ dets, ¬(d.cls_name = "pipe" ∧ d.track_id = some tid))
    (hnd : (fsm.pipes.map Prod.fst).Nodup) (hmem : (tid, p) ∈ fsm.pipes)
    (hother : ∀ kv ∈ fsm.pipes, kv.1 ≠ tid → kv.2.pipe_uid ≠ p.pipe_uid)
    (hwf : WFseq fsm) :
    C6Acc tid p (detPass fsm f ts dets) := by
  unfold detPass
  exact foldl_preserve_mem (C6Acc tid p) (detStep fsm f ts) dets
    (fun s d hdmem hs => detStep_c6 fsm f ts tid p s d (hnodet d hdmem) hs) _
    ⟨hnd, hmem, hother, hwf, by
      rw [show p.pipe_uid = ((tid, p) : Int × PipeStats).2.pipe_uid from rfl]
      exact hwf (tid, p) hmem,
      by intro e he; simp at he⟩

/-- C6: on a call to `update` at frame `f`, a tracked pipe not detected this
tick and unseen for more than `stale_track_frames` frames is removed from
the mapping, and — when it had entered but not exited the load-cell —
exactly one synthesized `PipeExitedLoadcellEvent` with its uid and the
current timestamp is among the returned events; a pipe unseen for exactly
`stale_track_frames` frames is retained unchanged. -/
theorem pipeflow_stale_reclamation (fsm : PipeFlowFSM) (f : Int) (ts : ℚ)
    (dets : List TrackDet) (tid : Int) (p : PipeStats)
    (hknd : (fsm.pipes.map Prod.fst).Nodup)
    (hund : (fsm.pipes.map (fun kv => kv.2.pipe_uid)).Nodup)
    (hwf : WFseq fsm)
    (hmem : (tid, p) ∈ fsm.pipes)
    (hnodet : ∀ d ∈ dets, ¬(d.cls_name = "pipe" ∧ d.track_id = some tid)) :
    (f - p.last_seen_frame > (fsm.stale_track_frames : Int) →
        alistGet (fsm.update f ts dets).fsm.pipes tid = none
          ∧ (p.t_loadcell_enter ≠ none → p.t_loadcell_exit = none →
              ((fsm.update f ts dets).events.filter (exitFor p.pipe_uid))
                = [PipeEvent.exited p.pipe_uid tid ts]))
      ∧ (f - p.last_seen_frame = (fsm.stale_track_frames : Int) →
          alistGet (fsm.update f ts dets).fsm.pipes tid = some p) := by
  have hother : ∀ kv ∈ fsm.pipes, kv.1 ≠ tid → kv.2.pipe_uid ≠ p.pipe_uid := by
    intro kv hkv hk hEq
    have : kv = (tid, p) := List.inj_on_of_nodup_map hund hkv hmem hEq
    exact hk (by rw [this])
  obtain ⟨hnd1, hmem1, hother1, hseq1, hu1, hev1⟩ :=
    detPass_c6 fsm f ts dets tid p hnodet hknd hmem hother hwf
  have hfrozen : ∀ kv ∈ (detPass fsm f ts dets).pipes, kv.1 = tid →
      kv.2 = p := fun kv hkv hk => alist_key_unique hnd1 hmem1 hkv hk
  constructor
  · intro hstale
    have hstaleb : isStale fsm f (tid, p) = true := by
      simp only [isStale]
      exact decide_eq_true hstale
    constructor
    · rw [update_fsm_pipes]
      apply alistGet_filter_none
      intro kv hkv hk
      have h2 := hfrozen kv hkv hk
      have : isStale fsm f kv = true := by
        simp only [isStale] at hstaleb ⊢
        rw [h2]
        exact hstaleb
      simp [this]
    · intro henter hexit
      rw [update_events, List.filter_append]
      have hleft : (detPass fsm f ts dets).events.filter (exitFor p.pipe_uid)
          = [] := by
        apply List.filter_eq_nil_iff.mpr
        intro e he
        have := hev1 e he
        simp [exitFor, this]
      rw [hleft, List.nil_append]
      exact staleOut_filter_exact fsm f ts _ tid p hnd1 hmem1 hother1 hstaleb
        henter hexit
  · intro hexact
    rw [update_fsm_pipes]
    have hget1 : alistGet (detPass fsm f ts dets).pipes tid = some p :=
      alistGet_of_mem_nodup hnd1 hmem1
    apply alistGet_filter _ hget1
    simp only [isStale]
    simp [hexact]

/-- A stale on-loadcell record (last seen at frame 0) and a fresh one for
the C6 witness. -/
def c6Record : PipeStats :=
  { pipe_uid := 1
    tracker_id := 3
    origin := some "caster"
    t_loadcell_enter := some 1
    counted := true
    last_seen_frame := 0 }

def c6FSM : PipeFlowFSM :=
  { contains := fun _ _ _ => false
    pulse_tag := "trig"
    pulse_ms := 200
    pipes := [(3, c6Record)]
    seq := 1
    stale_track_frames := 45 }

/-- Witness for C6: at frame 46 the record (unseen since frame 0) is exactly
one frame beyond the threshold, is removed, and yields one synthesized exit
event; at frame 45 it is retained. -/
theorem pipeflow_stale_reclamation_witness :
    ((46 : Int) - 0 > (45 : Nat)
        ∧ alistGet (c6FSM.update 46 9 []).fsm.pipes 3 = none
        ∧ ((c6FSM.update 46 9 []).events.filter (exitFor 1))
            = [PipeEvent.exited 1 3 9])
      ∧ ((45 : Int) - 0 = (45 : Nat)
        ∧ alistGet (c6FSM.update 45 9 []).fsm.pipes 3 = some c6Record) := by
  have h46 := pipeflow_stale_reclamation c6FSM 46 9 [] 3 c6Record
    (by decide) (by decide) (by decide) (by decide) (by intro d hd; simp at hd)
  have h45 := pipeflow_stale_reclamation c6FSM 45 9 [] 3 c6Record
    (by decide) (by decide) (by decide) (by decide) (by intro d hd; simp at hd)
  refine ⟨⟨by decide, ?_, ?_⟩, by decide, ?_⟩
  · exact (h46.1 (by decide)).1
  · exact (h46.1 (by decide)).2 (by decide) (by decide)
  · exact h45.2 (by decide)

/-! ## C4: re-arm after a sustained empty load-cell, then a second pulse -/

/-- No tracked pipe-class detection of the tick lies in the load-cell ROI
(the premise of the re-arm path), phrased against a containment oracle. -/
def emptyTick (c : String → ℚ → ℚ → Bool) (dets : List TrackDet) : Prop :=
  ∀ d ∈ dets, d.cls_name = "pipe" → d.track_id ≠ none →
    c RoiName.LOADCELL (d.bbox.centroid).1 (d.bbox.centroid).2 = false

instance (c : String → ℚ → ℚ → Bool) (dets : List TrackDet) :
    Decidable (emptyTick c dets) := by
  unfold emptyTick; infer_instance

theorem emptyTick_any (g : PipeFlowFSM) (dets : List TrackDet)
    (h : emptyTick g.contains dets) : anyPipeInLoadcell g dets = false := by
  unfold anyPipeInLoadcell
  rw [List.any_eq_false]
  intro d hd
  by_cases hcls : d.cls_name = "pipe"
  · cases htid : d.track_id with
    | none => simp [htid]
    | some tid =>
      have := h d hd hcls (by simp [htid])
      simp [this]
  · simp [hcls]

theorem anyTrue_of_det (g : PipeFlowFSM) (dets : List TrackDet)
    (d : TrackDet) (hd : d ∈ dets) (hcls : d.cls_name = "pipe")
    {tid : Int} (htid : d.track_id = some tid)
    (hin : g.contains RoiName.LOADCELL (d.bbox.centroid).1
      (d.bbox.centroid).2 = true) :
    anyPipeInLoadcell g dets = true := by
  unfold anyPipeInLoadcell
  rw [List.any_eq_true]
  exact ⟨d, hd, by simp [hcls, htid, hin]⟩

theorem anyFalse_det (g : PipeFlowFSM) (dets : List TrackDet)
    (h : anyPipeInLoadcell g dets = false) (d : TrackDet) (hd : d ∈ dets)
    (hcls : d.cls_name = "pipe") {tid : Int} (htid : d.track_id = some tid) :
    g.contains RoiName.LOADCELL (d.bbox.centroid).1 (d.bbox.centroid).2
      = false := by
  unfold anyPipeInLoadcell at h
  rw [List.any_eq_false] at h
  have := h d hd
  simpa [hcls, htid] using this

theorem rearmStreak_empty (g : PipeFlowFSM) (dets : List TrackDet)
    (h : anyPipeInLoadcell g dets = false) :
    rearmStreak g dets = g.loadcell_empty_streak + 1 := by
  simp [rearmStreak, h]

theorem rearmArmed_occupied (g : PipeFlowFSM) (dets : List TrackDet)
    (h : anyPipeInLoadcell g dets = true) :
    rearmArmed g dets = g.loadcell_armed := by
  simp [rearmArmed, h]

theorem rearmArmed_empty_true (g : PipeFlowFSM) (dets : List TrackDet)
    (h : anyPipeInLoadcell g dets = false) (harmed : g.loadcell_armed = true) :
    rearmArmed g dets = true := by
  simp [rearmArmed, h, harmed]

theorem rearmArmed_empty_reach (g : PipeFlowFSM) (dets : List TrackDet)
    (h : anyPipeInLoadcell g dets = false) (harmed : g.loadcell_armed = false)
    (hreach : g.rearm_empty_frames ≤ g.loadcell_empty_streak + 1) :
    rearmArmed g dets = true := by
  simp [rearmArmed, h, harmed, rearmStreak_empty g dets h, hreach]

theorem rearmArmed_empty_short (g : PipeFlowFSM) (dets : List TrackDet)
    (h : anyPipeInLoadcell g dets = false) (harmed : g.loadcell_armed = false)
    (hshort : ¬g.rearm_empty_frames ≤ g.loadcell_empty_streak + 1) :
    rearmArmed g dets = false := by
  simp [rearmArmed, h, harmed, rearmStreak_empty g dets h, hshort]

/-- A detection outside the load-cell ROI never fires and never changes the
armed flag. -/
theorem processRecord_no_fire (cfg : PipeFlowFSM) (f : Int) (ts : ℚ)
    (tid : Int) (cx cy conf : ℚ) (armed : Bool) (p0 : PipeStats)
    (h : cfg.contains RoiName.LOADCELL cx cy = false) :
    (processRecord cfg f ts tid cx cy conf armed p0).pulses = []
      ∧ (processRecord cfg f ts tid cx cy conf armed p0).armed = armed := by
  simp only [processRecord]
  exact ⟨(stepEnter_outside cfg ts tid cx cy armed _ h).2.1,
    (stepEnter_outside cfg ts tid cx cy armed _ h).1⟩

theorem detStep_no_fire (g : PipeFlowFSM) (f : Int) (ts : ℚ)
    (dets : List TrackDet) (hany : anyPipeInLoadcell g dets = false)
    (acc : PipeAcc) (d : TrackDet) (hd : d ∈ dets)
    (hP : acc.armed = rearmArmed g dets ∧ acc.pulses = []) :
    (detStep g f ts acc d).armed = rearmArmed g dets
      ∧ (detStep g f ts acc d).pulses = [] := by
  by_cases hcls : d.cls_name = "pipe"
  · cases htid : d.track_id with
    | none => rw [detStep_untracked _ _ _ _ _ htid]; exact hP
    | some tid =>
      have hout := anyFalse_det g dets hany d hd hcls htid
      cases hget : alistGet acc.pipes tid with
      | some q =>
        rw [detStep_known g f ts acc d tid q hcls htid hget]
        have hnf := processRecord_no_fire g f ts tid (d.bbox.centroid).1
          (d.bbox.centroid).2 d.conf acc.armed q hout
        refine ⟨?_, ?_⟩
        · show (processRecord g f ts tid (d.bbox.centroid).1
            (d.bbox.centroid).2 d.conf acc.armed q).armed = rearmArmed g dets
          rw [hnf.2, hP.1]
        · show acc.pulses ++ (processRecord g f ts tid (d.bbox.centroid).1
            (d.bbox.centroid).2 d.conf acc.armed q).pulses = []
          rw [hnf.1, hP.2, List.append_nil]
      | none =>
        rw [detStep_fresh g f ts acc d tid hcls htid hget]
        have hnf := processRecord_no_fire g f ts tid (d.bbox.centroid).1
          (d.bbox.centroid).2 d.conf acc.armed
          (freshPipe (acc.seq + 1) tid f ts) hout
        refine ⟨?_, ?_⟩
        · show (processRecord g f ts tid (d.bbox.centroid).1
            (d.bbox.centroid).2 d.conf acc.armed
            (freshPipe (acc.seq + 1) tid f ts)).armed = rearmArmed g dets
          rw [hnf.2, hP.1]
        · show acc.pulses ++ (processRecord g f ts tid (d.bbox.centroid).1
            (d.bbox.centroid).2 d.conf acc.armed
            (freshPipe (acc.seq + 1) tid f ts)).pulses = []
          rw [hnf.1, hP.2, List.append_nil]
  · rw [detStep_not_pipe _ _ _ _ _ hcls]; exact hP

/-- One update on an empty tick: the armed flag follows the re-arm rule, no
pulse is issued, and the empty streak grows by one. -/
theorem update_empty_tick (g : PipeFlowFSM) (f : Int) (ts : ℚ)
    (dets : List TrackDet) (h : anyPipeInLoadcell g dets = false) :
    (g.update f ts dets).fsm.loadcell_armed = rearmArmed g dets
      ∧ (g.update f ts dets).pulses = []
      ∧ (g.update f ts dets).fsm.loadcell_empty_streak
          = g.loadcell_empty_streak + 1 := by
  have hfold : (detPass g f ts dets).armed = rearmArmed g dets
      ∧ (detPass g f ts dets).pulses = [] := by
    unfold detPass
    exact foldl_preserve_mem
      (fun acc : PipeAcc => acc.armed = rearmArmed g dets ∧ acc.pulses = [])
      (detStep g f ts) dets
      (fun s d hd hs => detStep_no_fire g f ts dets h s d hd hs) _ ⟨rfl, rfl⟩
  exact ⟨by rw [update_armed]; exact hfold.1,
    by rw [update_pulses]; exact hfold.2,
    by rw [update_streak]; exact rearmStreak_empty g dets h⟩

/-- The entry block on an armed tick, for an eligible unconfirmed record
inside the ROI whose hit counter reaches the threshold: it fires. -/
theorem stepEnter_fire (cfg : PipeFlowFSM) (ts : ℚ) (tid : Int) (cx cy : ℚ)
    (p : PipeStats)
    (ho : p.origin = some "caster") (he : p.t_loadcell_enter = none)
    (hc : p.counted = false)
    (hh : cfg.loadcell_enter_confirm_frames ≤ p.loadcell_hits + 1)
    (hin : cfg.contains RoiName.LOADCELL cx cy = true) :
    stepEnter cfg ts tid cx cy true p
      = ⟨{ p with
            loadcell_hits := p.loadcell_hits + 1
            t_loadcell_enter := some ts
            state := "on_loadcell"
            counted := true }, false,
          [.entered p.pipe_uid tid ts],
          [⟨cfg.pulse_tag, cfg.pulse_ms, p.pipe_uid⟩]⟩ := by
  simp only [stepEnter]
  rw [if_pos ⟨ho, he⟩, if_pos hin, if_pos ⟨by trivial, hh⟩,
    if_neg (by simp [hc] : ¬({ p with
      loadcell_hits := p.loadcell_hits + 1
      t_loadcell_enter := some ts
      state := "on_loadcell" } : PipeStats).counted = true)]

theorem processRecord_fire (cfg : PipeFlowFSM) (f : Int) (ts : ℚ) (tid : Int)
    (cx cy conf : ℚ) (p : PipeStats)
    (ho : p.origin = some "caster") (he : p.t_loadcell_enter = none)
    (hc : p.counted = false)
    (hh : cfg.loadcell_enter_confirm_frames ≤ p.loadcell_hits + 1)
    (hin : cfg.contains RoiName.LOADCELL cx cy = true) :
    (processRecord cfg f ts tid cx cy conf true p).pulses
      = [⟨cfg.pulse_tag, cfg.pulse_ms, p.pipe_uid⟩] := by
  simp only [processRecord]
  set p2 := stepSeen f ts tid (stepMissing f p) with hp2
  have h2o : p2.origin = some "caster" := by simp [hp2, ho]
  have h3 : stepOrigin cfg ts cx cy p2 = p2 := stepOrigin_of_some _ _ _ _ _ h2o
  rw [h3]
  set p4 := stepConf cfg conf cx cy p2 with hp4
  have h4o : p4.origin = some "caster" := by
    rw [hp4, stepConf_origin]; exact h2o
  have h4e : p4.t_loadcell_enter = none := by
    rw [hp4, stepConf_t_enter]; simp [hp2, he]
  have h4c : p4.counted = false := by
    rw [hp4, stepConf_counted]; simp [hp2, hc]
  have h4h : p4.loadcell_hits = p.loadcell_hits := by
    rw [hp4, stepConf_loadcell_hits]; simp [hp2]
  have h4u : p4.pipe_uid = p.pipe_uid := by
    rw [hp4, stepConf_pipe_uid]; simp [hp2]
  rw [stepEnter_fire cfg ts tid cx cy p4 h4o h4e h4c (by rw [h4h]; exact hh) hin]
  rw [h4u]

/-- The trigger fires on an armed tick for an eligible record detected
inside the load-cell ROI whose hit counter reaches the entry threshold:
exactly one pulse, tagged with that record's uid, is issued. -/
theorem update_fires (g : PipeFlowFSM) (f2 : Int) (ts2 : ℚ) (tid2 : Int)
    (p2 : PipeStats) (d : TrackDet)
    (harmed : g.loadcell_armed = true)
    (hnd : (g.pipes.map Prod.fst).Nodup) (hmem : (tid2, p2) ∈ g.pipes)
    (ho : p2.origin = some "caster") (he : p2.t_loadcell_enter = none)
    (hc : p2.counted = false)
    (hh : g.loadcell_enter_confirm_frames ≤ p2.loadcell_hits + 1)
    (hcls : d.cls_name = "pipe") (htid : d.track_id = some tid2)
    (hin : g.contains RoiName.LOADCELL (d.bbox.centroid).1
      (d.bbox.centroid).2 = true) :
    (g.update f2 ts2 [d]).pulses = [⟨g.pulse_tag, g.pulse_ms, p2.pipe_uid⟩] := by
  have hget : alistGet g.pipes tid2 = some p2 := alistGet_of_mem_nodup hnd hmem
  have hany : anyPipeInLoadcell g [d] = true :=
    anyTrue_of_det g [d] d (List.mem_cons_self d []) hcls htid hin
  have hacc : rearmArmed g [d] = true := by
    rw [rearmArmed_occupied g [d] hany]; exact harmed
  have hpass : detPass g f2 ts2 [d]
      = detStep g f2 ts2 ⟨g.pipes, g.seq, rearmArmed g [d], [], [], []⟩ d := rfl
  rw [update_pulses, hpass,
    detStep_known g f2 ts2 ⟨g.pipes, g.seq, rearmArmed g [d], [], [], []⟩ d
      tid2 p2 hcls htid hget]
  show ([] : List Pulse) ++ (processRecord g f2 ts2 tid2 (d.bbox.centroid).1
    (d.bbox.centroid).2 d.conf (rearmArmed g [d]) p2).pulses = _
  rw [List.nil_append, hacc]
  exact processRecord_fire g f2 ts2 tid2 (d.bbox.centroid).1
    (d.bbox.centroid).2 d.conf p2 ho he hc hh hin

/-- `updateMany` never changes the configuration fields. -/
theorem updateMany_config (fsm : PipeFlowFSM)
    (ins : List (Int × ℚ × List TrackDet)) :
    (fsm.updateMany ins).1.contains = fsm.contains
      ∧ (fsm.updateMany ins).1.pulse_tag = fsm.pulse_tag
      ∧ (fsm.updateMany ins).1.pulse_ms = fsm.pulse_ms
      ∧ (fsm.updateMany ins).1.loadcell_enter_confirm_frames
          = fsm.loadcell_enter_confirm_frames
      ∧ (fsm.updateMany ins).1.rearm_empty_frames = fsm.rearm_empty_frames := by
  unfold PipeFlowFSM.updateMany
  suffices hgen : ∀ (l : List (Int × ℚ × List TrackDet)) (g : PipeFlowFSM)
      (acc : List Pulse),
      (l.foldl updateManyStep (g, acc)).1.contains = g.contains
        ∧ (l.foldl updateManyStep (g, acc)).1.pulse_tag = g.pulse_tag
        ∧ (l.foldl updateManyStep (g, acc)).1.pulse_ms = g.pulse_ms
        ∧ (l.foldl updateManyStep (g, acc)).1.loadcell_enter_confirm_frames
            = g.loadcell_enter_confirm_frames
        ∧ (l.foldl updateManyStep (g, acc)).1.rearm_empty_frames
            = g.rearm_empty_frames by
    exact hgen ins fsm []
  intro l
  induction l with
  | nil => intro g acc; exact ⟨rfl, rfl, rfl, rfl, rfl⟩
  | cons i rest ih =>
    intro g acc
    rw [List.foldl_cons, updateManyStep_eq]
    obtain ⟨h1, h2, h3, h4, h5⟩ := ih (g.update i.1 i.2.1 i.2.2).fsm
      (acc ++ (g.update i.1 i.2.1 i.2.2).pulses)
    obtain ⟨u1, u2, u3, _, u5, _, _, u8⟩ := update_config g i.1 i.2.1 i.2.2
    exact ⟨h1.trans u1, h2.trans u2, h3.trans u3, h4.trans u5, h5.trans u8⟩

/-- A run of empty ticks keeps an armed load-cell armed and issues no
pulse. -/
theorem emptyRun_stays_armed (ins : List (Int × ℚ × List TrackDet)) :
    ∀ (g : PipeFlowFSM) (acc : List Pulse),
      (∀ i ∈ ins, emptyTick g.contains i.2.2) → g.loadcell_armed = true →
      (ins.foldl updateManyStep (g, acc)).1.loadcell_armed = true
        ∧ (ins.foldl updateManyStep (g, acc)).2 = acc := by
  induction ins with
  | nil => intro g acc _ harmed; exact ⟨harmed, rfl⟩
  | cons i rest ih =>
    intro g acc hempty harmed
    have hany : anyPipeInLoadcell g i.2.2 = false :=
      emptyTick_any g i.2.2 (hempty i (List.mem_cons_self i rest))
    obtain ⟨ha, hp, _⟩ := update_empty_tick g i.1 i.2.1 i.2.2 hany
    have harm' : (g.update i.1 i.2.1 i.2.2).fsm.loadcell_armed = true := by
      rw [ha]; exact rearmArmed_empty_true g i.2.2 hany harmed
    have hconts : (g.update i.1 i.2.1 i.2.2).fsm.contains = g.contains :=
      (update_config g i.1 i.2.1 i.2.2).1
    rw [List.foldl_cons, updateManyStep_eq, hp, List.append_nil]
    exact ih (g.update i.1 i.2.1 i.2.2).fsm acc
      (by
        intro j hj
        rw [hconts]
        exact hempty j (List.mem_cons_of_mem i hj)) harm'

/-- A long-enough run of empty ticks from a disarmed state re-arms, with no
pulse issued along the way. -/
theorem emptyRun_rearms (ins : List (Int × ℚ × List TrackDet)) :
    ∀ (g : PipeFlowFSM) (acc : List Pulse),
      (∀ i ∈ ins, emptyTick g.contains i.2.2) → g.loadcell_armed = false →
      1 ≤ ins.length →
      g.rearm_empty_frames ≤ g.loadcell_empty_streak + ins.length →
      (ins.foldl updateManyStep (g, acc)).1.loadcell_armed = true
        ∧ (ins.foldl updateManyStep (g, acc)).2 = acc := by
  induction ins with
  | nil => intro g acc _ _ hlen _; simp at hlen
  | cons i rest ih =>
    intro g acc hempty harmed hlen hsum
    have hany : anyPipeInLoadcell g i.2.2 = false :=
      emptyTick_any g i.2.2 (hempty i (List.mem_cons_self i rest))
    obtain ⟨ha, hp, hs⟩ := update_empty_tick g i.1 i.2.1 i.2.2 hany
    have hconts : (g.update i.1 i.2.1 i.2.2).fsm.contains = g.contains :=
      (update_config g i.1 i.2.1 i.2.2).1
    have hempty' : ∀ j ∈ rest,
        emptyTick (g.update i.1 i.2.1 i.2.2).fsm.contains j.2.2 := by
      intro j hj
      rw [hconts]
      exact hempty j (List.mem_cons_of_mem i hj)
    rw [List.foldl_cons, updateManyStep_eq, hp, List.append_nil]
    by_cases hreach : g.rearm_empty_frames ≤ g.loadcell_empty_streak + 1
    · have harm' : (g.update i.1 i.2.1 i.2.2).fsm.loadcell_armed = true := by
        rw [ha]; exact rearmArmed_empty_reach g i.2.2 hany harmed hreach
      exact emptyRun_stays_armed rest (g.update i.1 i.2.1 i.2.2).fsm acc
        hempty' harm'
    · have harm' : (g.update i.1 i.2.1 i.2.2).fsm.loadcell_armed = false := by
        rw [ha]; exact rearmArmed_empty_short g i.2.2 hany harmed hreach
      have hrest1 : 1 ≤ rest.length := by
        rcases Nat.eq_zero_or_pos rest.length with h0 | h1
        · exfalso
          apply hreach
          simp only [List.length_cons, h0] at hsum
          omega
        · exact h1
      have hrearm' : (g.update i.1 i.2.1 i.2.2).fsm.rearm_empty_frames
          = g.rearm_empty_frames :=
        (update_config g i.1 i.2.1 i.2.2).2.2.2.2.2.2.2
      have hsum' : (g.update i.1 i.2.1 i.2.2).fsm.rearm_empty_frames
          ≤ (g.update i.1 i.2.1 i.2.2).fsm.loadcell_empty_streak
            + rest.length := by
        rw [hrearm', hs]
        simp only [List.length_cons] at hsum
        omega
      exact ih (g.update i.1 i.2.1 i.2.2).fsm acc hempty' harm' hrest1 hsum'

/-- C4: from a disarmed state with a zero empty streak, a run of at least
`rearm_empty_frames` ticks on which no tracked pipe-class detection lies in
the load-cell ROI re-arms the FSM without issuing any pulse; afterwards a
distinct caster pipe detected inside the ROI whose hit counter reaches the
entry threshold triggers a second, independent pulse carrying its own uid. -/
theorem pipeflow_rearm_second_pulse (fsm : PipeFlowFSM)
    (ins : List (Int × ℚ × List TrackDet))
    (hdis : fsm.loadcell_armed = false)
    (hstreak : fsm.loadcell_empty_streak = 0)
    (hN : 1 ≤ fsm.rearm_empty_frames)
    (hlen : fsm.rearm_empty_frames ≤ ins.length)
    (hempty : ∀ i ∈ ins, emptyTick fsm.contains i.2.2) :
    (fsm.updateMany ins).1.loadcell_armed = true
      ∧ (fsm.updateMany ins).2 = []
      ∧ ∀ (tid2 : Int) (p2 : PipeStats) (d : TrackDet) (f2 : Int) (ts2 : ℚ),
          (((fsm.updateMany ins).1.pipes.map Prod.fst).Nodup) →
          (tid2, p2) ∈ (fsm.updateMany ins).1.pipes →
          p2.origin = some "caster" → p2.t_loadcell_enter = none →
          p2.counted = false →
          fsm.loadcell_enter_confirm_frames ≤ p2.loadcell_hits + 1 →
          d.cls_name = "pipe" → d.track_id = some tid2 →
          fsm.contains RoiName.LOADCELL (d.bbox.centroid).1
            (d.bbox.centroid).2 = true →
          ((fsm.updateMany ins).1.update f2 ts2 [d]).pulses
            = [⟨fsm.pulse_tag, fsm.pulse_ms, p2.pipe_uid⟩] := by
  have hrun := emptyRun_rearms ins fsm [] hempty hdis (le_trans hN hlen)
    (by rw [hstreak]; omega)
  obtain ⟨hcont, htag, hms, hconf, _⟩ := updateMany_config fsm ins
  refine ⟨hrun.1, hrun.2, ?_⟩
  intro tid2 p2 d f2 ts2 hnd hmem ho he hc hh hcls htid hin
  rw [← htag, ← hms]
  exact update_fires (fsm.updateMany ins).1 f2 ts2 tid2 p2 d hrun.1 hnd hmem
    ho he hc (by rw [hconf]; exact hh) hcls htid (by rw [hcont]; exact hin)

/-- C4 witness state: disarmed after a first count; one already-counted
record, plus one fresh caster pipe record ready to confirm. -/
def c4FSM : PipeFlowFSM :=
  { contains := fun n _ _ => n == RoiName.LOADCELL
    pulse_tag := "trig"
    pulse_ms := 200
    loadcell_enter_confirm_frames := 1
    rearm_empty_frames := 2
    pipes := [(1, c1Record),
      (2, { pipe_uid := 2, tracker_id := 2, origin := some "caster" })]
    seq := 2
    loadcell_armed := false }

/-- Witness for C4: two empty ticks re-arm the FSM, then the second pipe
(tracker 2, uid 2) fires its own pulse. -/
theorem pipeflow_rearm_second_pulse_witness :
    (c4FSM.updateMany [(10, 10, []), (11, 11, [])]).1.loadcell_armed = true
      ∧ (c4FSM.updateMany [(10, 10, []), (11, 11, [])]).2 = []
      ∧ ((c4FSM.updateMany [(10, 10, []), (11, 11, [])]).1.update 12 12
          [⟨"pipe", 1, some 2, ⟨0, 0, 2, 2⟩⟩]).pulses
          = [⟨"trig", 200, 2⟩] := by
  have h := pipeflow_rearm_second_pulse c4FSM [(10, 10, []), (11, 11, [])]
    (by decide) (by decide) (by decide) (by decide)
    (by decide)
  refine ⟨h.1, h.2.1, ?_⟩
  exact h.2.2 2 { pipe_uid := 2, tracker_id := 2, origin := some "caster" }
    ⟨"pipe", 1, some 2, ⟨0, 0, 2, 2⟩⟩ 12 12
    (by decide) (by decide) (by decide) (by decide) (by decide) (by decide)
    (by decide) (by decide) (by decide)

/-! ## Gate FSM (`src/logic/gate_fsm.py`, `src/logic/datatypes.py`) -/

/-- Per-gate status record (`GateStatus`). -/
structure GateStatus where
  name : String
  position : String := "unknown"
  stable : Nat := 0
  last_ts : ℚ := 0
deriving DecidableEq

/-- `GateOpenedEvent`. -/
structure GateOpenedEvent where
  gate_name : String
  t_open : ℚ
deriving DecidableEq

/-- A `plc.pulse` call made by the Gate FSM. -/
structure GatePulse where
  tag : String
  ms : Nat
deriving DecidableEq

/-- Free-form numeric diagnostics map returned by a status source. -/
abbrev Metrics := List (String × ℚ)

/-- `GateFSM` configuration and state; the status source strategy object is
abstracted by the per-tick response function passed to `update`. -/
structure GateFSM where
  pulse_ms : Nat
  stable_frames : Nat
  gate_tags : List (String × String)
  plc_signal_on_open : Bool := true
  gates : List (String × GateStatus) :=
    [("gate1", { name := "gate1" }), ("gate2", { name := "gate2" })]

/-- The per-gate body of the `for gate_name, gs in self.gates.items()` loop:
returns the updated status, the events emitted for this gate, and the PLC
pulses issued for it. -/
def gateStep (N : Nat) (tags : List (String × String)) (signal : Bool)
    (pulse_ms : Nat) (now : ℚ) (g : String) (pos : String) (gs : GateStatus) :
    GateStatus × List GateOpenedEvent × List GatePulse :=
  if pos == "unknown" then ({ gs with last_ts := now }, [], [])
  else
    let gs1 :=
      if pos == gs.position then { gs with stable := gs.stable + 1 }
      else { gs with position := pos, stable := 1 }
    let gs2 := { gs1 with last_ts := now }
    if gs2.position == "open" && gs2.stable == N then
      (gs2, [⟨g, now⟩],
        match alistGet tags g with
        | some tag => if signal && !(tag == "") then [⟨tag, pulse_ms⟩] else []
        | none => [])
    else (gs2, [], [])

/-- Loop state of `GateFSM.update`: rebuilt gate map, events, the
loop-carried `metrics` binding (`none` until the first gate is processed,
as the Python local is unbound until then), pulses. -/
structure GateAcc where
  gates : List (String × GateStatus)
  events : List GateOpenedEvent
  metrics : Option Metrics
  pulses : List GatePulse

/-- One iteration of the gate loop. -/
def gateUpdStep (N : Nat) (tags : List (String × String)) (signal : Bool)
    (pulse_ms : Nat) (now : ℚ) (getPos : String → String × Metrics)
    (acc : GateAcc) (kv : String × GateStatus) : GateAcc :=
  let pm := getPos kv.1
  let r := gateStep N tags signal pulse_ms now kv.1 pm.1 kv.2
  ⟨acc.gates ++ [(kv.1, r.1)], acc.events ++ r.2.1, some pm.2,
    acc.pulses ++ r.2.2⟩

/-- `GateFSM.update(frame, dets)`: the status source responses for this tick
are abstracted as `getPos`, and `time.time()` as `now`.  Returns the new
FSM, the events, the returned `metrics` binding, and the pulses issued. -/
def GateFSM.update (fsm : GateFSM) (getPos : String → String × Metrics)
    (now : ℚ) : GateFSM × List GateOpenedEvent × Option Metrics
      × List GatePulse :=
  let acc := fsm.gates.foldl
    (gateUpdStep fsm.stable_frames fsm.gate_tags fsm.plc_signal_on_open
      fsm.pulse_ms now getPos)
    ⟨[], [], none, []⟩
  ({ fsm with gates := acc.gates }, acc.events, acc.metrics, acc.pulses)

/-- Iterated ticks; collects the event list of every tick. -/
def runStep (st : GateFSM × List (List GateOpenedEvent))
    (t : (String → String × Metrics) × ℚ) :
    GateFSM × List (List GateOpenedEvent) :=
  ((st.1.update t.1 t.2).1, st.2 ++ [(st.1.update t.1 t.2).2.1])

def GateFSM.runTicks (fsm : GateFSM)
    (ticks : List ((String → String × Metrics) × ℚ)) :
    GateFSM × List (List GateOpenedEvent) :=
  ticks.foldl runStep (fsm, [])

/-- Events concerning one gate. -/
def eventsFor (g : String) (evs : List GateOpenedEvent) :
    List GateOpenedEvent :=
  evs.filter (fun e => e.gate_name == g)

/-! ## Structure of one `GateFSM.update` call -/

theorem gateFold_gates (N : Nat) (tags : List (String × String)) (signal : Bool)
    (pulse_ms : Nat) (now : ℚ) (getPos : String → String × Metrics) :
    ∀ (l : List (String × GateStatus)) (acc : GateAcc),
      (l.foldl (gateUpdStep N tags signal pulse_ms now getPos) acc).gates
        = acc.gates ++ l.map (fun kv =>
            (kv.1, (gateStep N tags signal pulse_ms now kv.1 (getPos kv.1).1
              kv.2).1)) := by
  intro l
  induction l with
  | nil => intro acc; simp
  | cons kv rest ih =>
    intro acc
    rw [List.foldl_cons, ih]
    simp [gateUpdStep]

theorem gateFold_events (N : Nat) (tags : List (String × String))
    (signal : Bool) (pulse_ms : Nat) (now : ℚ)
    (getPos : String → String × Metrics) :
    ∀ (l : List (String × GateStatus)) (acc : GateAcc),
      (l.foldl (gateUpdStep N tags signal pulse_ms now getPos) acc).events
        = acc.events ++ (l.map (fun kv =>
            (gateStep N tags signal pulse_ms now kv.1 (getPos kv.1).1
              kv.2).2.1)).flatten := by
  intro l
  induction l with
  | nil => intro acc; simp
  | cons kv rest ih =>
    intro acc
    rw [List.foldl_cons, ih]
    simp [gateUpdStep]

theorem gateFold_metrics_last (N : Nat) (tags : List (String × String))
    (signal : Bool) (pulse_ms : Nat) (now : ℚ)
    (getPos : String → String × Metrics) :
    ∀ (l0 : List (String × GateStatus)) (kv : String × GateStatus)
      (acc : GateAcc),
      ((l0 ++ [kv]).foldl (gateUpdStep N tags signal pulse_ms now getPos)
        acc).metrics = some (getPos kv.1).2 := by
  intro l0
  induction l0 with
  | nil => intro kv acc; rfl
  | cons kv0 rest ih =>
    intro kv acc
    rw [List.cons_append, List.foldl_cons]
    exact ih kv _

theorem update_gates (fsm : GateFSM) (getPos : String → String × Metrics)
    (now : ℚ) :
    (fsm.update getPos now).1.gates
      = fsm.gates.map (fun kv =>
          (kv.1, (gateStep fsm.stable_frames fsm.gate_tags
            fsm.plc_signal_on_open fsm.pulse_ms now kv.1 (getPos kv.1).1
            kv.2).1)) := by
  show (fsm.gates.foldl (gateUpdStep fsm.stable_frames fsm.gate_tags
    fsm.plc_signal_on_open fsm.pulse_ms now getPos)
    (⟨[], [], none, []⟩ : GateAcc)).gates = _
  rw [gateFold_gates]
  rfl

theorem update_gevents (fsm : GateFSM) (getPos : String → String × Metrics)
    (now : ℚ) :
    (fsm.update getPos now).2.1
      = (fsm.gates.map (fun kv =>
          (gateStep fsm.stable_frames fsm.gate_tags fsm.plc_signal_on_open
            fsm.pulse_ms now kv.1 (getPos kv.1).1 kv.2).2.1)).flatten := by
  show (fsm.gates.foldl (gateUpdStep fsm.stable_frames fsm.gate_tags
    fsm.plc_signal_on_open fsm.pulse_ms now getPos)
    (⟨[], [], none, []⟩ : GateAcc)).events = _
  rw [gateFold_events]
  rfl

/-- `update` does not change the configuration of the Gate FSM. -/
theorem update_gate_config (fsm : GateFSM) (getPos : String → String × Metrics)
    (now : ℚ) :
    (fsm.update getPos now).1.stable_frames = fsm.stable_frames
      ∧ (fsm.update getPos now).1.gate_tags = fsm.gate_tags
      ∧ (fsm.update getPos now).1.plc_signal_on_open = fsm.plc_signal_on_open
      ∧ (fsm.update getPos now).1.pulse_ms = fsm.pulse_ms :=
  ⟨rfl, rfl, rfl, rfl⟩

theorem update_gate_keys (fsm : GateFSM) (getPos : String → String × Metrics)
    (now : ℚ) :
    (fsm.update getPos now).1.gates.map Prod.fst
      = fsm.gates.map Prod.fst := by
  rw [update_gates, List.map_map]
  rfl

theorem alistGet_map_keyed {α β γ : Type} [BEq α] [LawfulBEq α]
    (l : List (α × β)) (F : α × β → γ) {g : α} {gs : β}
    (h : alistGet l g = some gs) :
    alistGet (l.map (fun kv => (kv.1, F kv))) g = some (F (g, gs)) := by
  induction l with
  | nil => simp [alistGet] at h
  | cons kv rest ih =>
    by_cases hk : (kv.1 == g) = true
    · have hkv : kv = (g, gs) := by
        unfold alistGet at h
        rw [find?_cons_true (fun kv => kv.1 == g) kv rest hk] at h
        have h2 : kv.2 = gs := by simpa using h
        have h1 : kv.1 = g := eq_of_beq hk
        cases kv; simp_all
      subst hkv
      unfold alistGet
      rw [List.map_cons,
        find?_cons_true (fun kv => kv.1 == g) ((g, gs).1, F (g, gs)) _ (by simp)]
      rfl
    · have hk' : (kv.1 == g) = false := by simpa using hk
      have hrest : alistGet rest g = some gs := by
        unfold alistGet at h ⊢
        rwa [find?_cons_false (fun kv => kv.1 == g) kv rest hk'] at h
      unfold alistGet
      rw [List.map_cons,
        find?_cons_false (fun kv => kv.1 == g) (kv.1, F kv) _ hk']
      exact ih hrest

/-- Every event emitted by one gate's step names that gate. -/
theorem gateStep_events_name (N : Nat) (tags : List (String × String))
    (signal : Bool) (pulse_ms : Nat) (now : ℚ) (g : String) (pos : String)
    (gs : GateStatus) :
    ∀ e ∈ (gateStep N tags signal pulse_ms now g pos gs).2.1,
      e.gate_name = g := by
  simp only [gateStep]
  split_ifs <;> simp

theorem eventsFor_flatten (N : Nat) (tags : List (String × String))
    (signal : Bool) (pulse_ms : Nat) (now : ℚ)
    (getPos : String → String × Metrics) :
    ∀ (l : List (String × GateStatus)) (g : String) (gs : GateStatus),
      (l.map Prod.fst).Nodup → alistGet l g = some gs →
      eventsFor g ((l.map (fun kv =>
          (gateStep N tags signal pulse_ms now kv.1 (getPos kv.1).1
            kv.2).2.1)).flatten)
        = (gateStep N tags signal pulse_ms now g (getPos g).1 gs).2.1 := by
  intro l
  induction l with
  | nil => intro g gs _ h; simp [alistGet] at h
  | cons kv rest ih =>
    intro g gs hnd hget
    rw [List.map_cons, List.flatten_cons]
    unfold eventsFor
    rw [List.filter_append]
    by_cases hk : (kv.1 == g) = true
    · have hkv : kv = (g, gs) := by
        unfold alistGet at hget
        rw [find?_cons_true (fun kv => kv.1 == g) kv rest hk] at hget
        have h2 : kv.2 = gs := by simpa using hget
        have h1 : kv.1 = g := eq_of_beq hk
        cases kv; simp_all
      subst hkv
      have hhead : (gateStep N tags signal pulse_ms now (g, gs).1
          (getPos (g, gs).1).1 (g, gs).2).2.1.filter
            (fun e => e.gate_name == g)
          = (gateStep N tags signal pulse_ms now g (getPos g).1 gs).2.1 := by
        apply List.filter_eq_self.mpr
        intro e he
        have := gateStep_events_name N tags signal pulse_ms now g
          (getPos g).1 gs e he
        simp [this]
      have htail : ((rest.map (fun kv =>
          (gateStep N tags signal pulse_ms now kv.1 (getPos kv.1).1
            kv.2).2.1)).flatten).filter (fun e => e.gate_name == g) = [] := by
        apply List.filter_eq_nil_iff.mpr
        intro e he
        rcases List.mem_flatten.mp he with ⟨evs, hevs, hein⟩
        rcases List.mem_map.mp hevs with ⟨kv', hkv', hevseq⟩
        have hname : e.gate_name = kv'.1 := by
          rw [← hevseq] at hein
          exact gateStep_events_name N tags signal pulse_ms now kv'.1
            (getPos kv'.1).1 kv'.2 e hein
        have hne : kv'.1 ≠ g := by
          intro hEq
          rw [List.map_cons, List.nodup_cons] at hnd
          exact hnd.1 (List.mem_map.mpr ⟨kv', hkv', by simp [hEq]⟩)
        simp [hname, hne]
      rw [hhead, htail, List.append_nil]
    · have hk' : (kv.1 == g) = false := by simpa using hk
      have hrest : alistGet rest g = some gs := by
        unfold alistGet at hget ⊢
        rwa [find?_cons_false (fun kv => kv.1 == g) kv rest hk'] at hget
      have hhead : (gateStep N tags signal pulse_ms now kv.1
          (getPos kv.1).1 kv.2).2.1.filter (fun e => e.gate_name == g)
          = [] := by
        apply List.filter_eq_nil_iff.mpr
        intro e he
        have hname := gateStep_events_name N tags signal pulse_ms now kv.1
          (getPos kv.1).1 kv.2 e he
        rw [hname]
        simp [hk']
      rw [hhead, List.nil_append]
      have := ih g gs (by rw [List.map_cons, List.nodup_cons] at hnd; exact hnd.2) hrest
      unfold eventsFor at this
      exact this

/-- Per-gate view of one `update` call: the gate's new status is exactly its
`gateStep` result, and the events of this tick naming the gate are exactly
the ones its step emitted. -/
theorem update_gate (fsm : GateFSM) (getPos : String → String × Metrics)
    (now : ℚ) (g : String) (gs : GateStatus)
    (hnd : (fsm.gates.map Prod.fst).Nodup)
    (hget : alistGet fsm.gates g = some gs) :
    alistGet (fsm.update getPos now).1.gates g
        = some (gateStep fsm.stable_frames fsm.gate_tags
            fsm.plc_signal_on_open fsm.pulse_ms now g (getPos g).1 gs).1
      ∧ eventsFor g (fsm.update getPos now).2.1
        = (gateStep fsm.stable_frames fsm.gate_tags fsm.plc_signal_on_open
            fsm.pulse_ms now g (getPos g).1 gs).2.1 := by
  constructor
  · rw [update_gates]
    exact alistGet_map_keyed fsm.gates _ hget
  · rw [update_gevents]
    exact eventsFor_flatten _ _ _ _ _ _ fsm.gates g gs hnd hget

/-! ## C5: "unknown" freezes a gate -/

/-- C5: on a tick where the status source answers "unknown" for a gate,
`update` changes only that gate's `last_ts`: its position and stable counter
are exactly what they were, and no event is emitted for it. -/
theorem gatefsm_unknown_frozen (fsm : GateFSM)
    (getPos : String → String × Metrics) (now : ℚ) (g : String)
    (gs : GateStatus)
    (hnd : (fsm.gates.map Prod.fst).Nodup)
    (hget : alistGet fsm.gates g = some gs)
    (hunk : (getPos g).1 = "unknown") :
    alistGet (fsm.update getPos now).1.gates g
        = some { gs with last_ts := now }
      ∧ eventsFor g (fsm.update getPos now).2.1 = [] := by
  obtain ⟨h1, h2⟩ := update_gate fsm getPos now g gs hnd hget
  rw [hunk] at h1 h2
  have hstep : gateStep fsm.stable_frames fsm.gate_tags fsm.plc_signal_on_open
      fsm.pulse_ms now g "unknown" gs = ({ gs with last_ts := now }, [], []) := by
    simp [gateStep]
  rw [hstep] at h1 h2
  exact ⟨h1, h2⟩

/-- Default Gate FSM instance for the gate witnesses. -/
def gFSM : GateFSM :=
  { pulse_ms := 300
    stable_frames := 2
    gate_tags := [("gate2", "gate2_pulse")] }

/-- Witness for C5 at the default gate set: an all-unknown tick freezes
"gate1" except for `last_ts`. -/
theorem gatefsm_unknown_frozen_witness :
    ((gFSM.gates.map Prod.fst).Nodup
        ∧ alistGet gFSM.gates "gate1" = some { name := "gate1" }
        ∧ ((fun _ => ("unknown", ([] : Metrics))) "gate1").1 = "unknown")
      ∧ alistGet (gFSM.update (fun _ => ("unknown", [])) 5).1.gates "gate1"
          = some { name := "gate1", last_ts := 5 }
      ∧ eventsFor "gate1" (gFSM.update (fun _ => ("unknown", [])) 5).2.1
          = [] :=
  ⟨⟨by decide, by decide, by decide⟩,
    gatefsm_unknown_frozen gFSM (fun _ => ("unknown", [])) 5 "gate1"
      { name := "gate1" } (by decide) (by decide) (by decide)⟩

/-! ## C10: the returned metrics are the last gate's -/

/-- C10: `update` returns as metrics exactly the diagnostics of the last
gate in iteration order ("gate2" for the default gate set), the metrics of
every earlier gate being discarded — whatever the statuses returned,
"unknown" for the last gate included. -/
theorem gatefsm_metrics_last_gate (fsm : GateFSM)
    (getPos : String → String × Metrics) (now : ℚ)
    (l0 : List (String × GateStatus)) (g : String) (gs : GateStatus)
    (hgates : fsm.gates = l0 ++ [(g, gs)]) :
    (fsm.update getPos now).2.2.1 = some (getPos g).2 := by
  show (fsm.gates.foldl (gateUpdStep fsm.stable_frames fsm.gate_tags
    fsm.plc_signal_on_open fsm.pulse_ms now getPos)
    (⟨[], [], none, []⟩ : GateAcc)).metrics = _
  rw [hgates]
  exact gateFold_metrics_last _ _ _ _ _ _ l0 (g, gs) _

/-- Witness for C10: with per-gate distinct metrics and the last gate
("gate2") answering "unknown", the returned metrics are gate2's. -/
theorem gatefsm_metrics_last_gate_witness :
    gFSM.gates = [("gate1", { name := "gate1" })]
        ++ [("gate2", { name := "gate2" })]
      ∧ (gFSM.update (fun n => if n == "gate2" then ("unknown", [("m", 2)])
          else ("open", [("m", 1)])) 5).2.2.1
        = some ((fun n : String => if n == "gate2" then ("unknown", [("m", 2)])
            else ("open", ([("m", 1)] : Metrics))) "gate2").2 :=
  ⟨by decide,
    gatefsm_metrics_last_gate gFSM _ 5 [("gate1", { name := "gate1" })]
      "gate2" { name := "gate2" } (by decide)⟩

/-! ## C3: debounced emission on a run of "open" statuses -/

theorem gateStep_open_same_status (N : Nat) (tags : List (String × String))
    (signal : Bool) (pm : Nat) (now : ℚ) (g : String) (gs : GateStatus)
    (hgs : gs.position = "open") :
    (gateStep N tags signal pm now g "open" gs).1
      = ⟨gs.name, "open", gs.stable + 1, now⟩ := by
  obtain ⟨nm, pos, st, lt⟩ := gs
  simp only at hgs
  subst hgs
  simp only [gateStep]
  split_ifs with h1 h2 h3 <;> first | rfl | simp_all

theorem gateStep_open_same_events (N : Nat) (tags : List (String × String))
    (signal : Bool) (pm : Nat) (now : ℚ) (g : String) (gs : GateStatus)
    (hgs : gs.position = "open") :
    (gateStep N tags signal pm now g "open" gs).2.1
      = if gs.stable + 1 = N then [⟨g, now⟩] else [] := by
  obtain ⟨nm, pos, st, lt⟩ := gs
  simp only at hgs
  subst hgs
  simp only [gateStep]
  split_ifs with h1 h2 h3 h4 <;> first | rfl | simp_all

theorem gateStep_open_diff_status (N : Nat) (tags : List (String × String))
    (signal : Bool) (pm : Nat) (now : ℚ) (g : String) (gs : GateStatus)
    (hgs : gs.position ≠ "open") :
    (gateStep N tags signal pm now g "open" gs).1
      = ⟨gs.name, "open", 1, now⟩ := by
  obtain ⟨nm, pos, st, lt⟩ := gs
  simp only at hgs
  simp only [gateStep]
  split_ifs with h1 h2 h3 <;> first | rfl | simp_all

theorem gateStep_open_diff_events (N : Nat) (tags : List (String × String))
    (signal : Bool) (pm : Nat) (now : ℚ) (g : String) (gs : GateStatus)
    (hgs : gs.position ≠ "open") :
    (gateStep N tags signal pm now g "open" gs).2.1
      = if 1 = N then [⟨g, now⟩] else [] := by
  obtain ⟨nm, pos, st, lt⟩ := gs
  simp only at hgs
  simp only [gateStep]
  split_ifs with h1 h2 h3 h4 <;> first | rfl | simp_all

theorem gateStep_closed (N : Nat) (tags : List (String × String))
    (signal : Bool) (pm : Nat) (now : ℚ) (g : String) (gs : GateStatus) :
    (gateStep N tags signal pm now g "closed" gs).1.position = "closed"
      ∧ (gateStep N tags signal pm now g "closed" gs).1.name = gs.name
      ∧ (gateStep N tags signal pm now g "closed" gs).2.1 = [] := by
  obtain ⟨nm, pos, st, lt⟩ := gs
  simp only [gateStep]
  split_ifs with h1 h2 h3 <;> simp_all

theorem runStep_eq (fsm : GateFSM) (acc : List (List GateOpenedEvent))
    (t : (String → String × Metrics) × ℚ) :
    runStep (fsm, acc) t
      = ((fsm.update t.1 t.2).1, acc ++ [(fsm.update t.1 t.2).2.1]) := rfl

/-- A run of "open" ticks for gate `g`, starting from a status already at
position "open" with `stable = c`: the per-tick events for `g` are exactly
one `GateOpenedEvent` on the tick where the stable counter hits `N`, and
the final status has `stable = c + length`. -/
theorem openRun_aux (N : Nat) (g : String) :
    ∀ (ticks : List ((String → String × Metrics) × ℚ)) (fsm : GateFSM)
      (acc : List (List GateOpenedEvent)) (gs : GateStatus),
      fsm.stable_frames = N →
      (fsm.gates.map Prod.fst).Nodup →
      alistGet fsm.gates g = some gs →
      gs.position = "open" →
      (∀ t ∈ ticks, (t.1 g).1 = "open") →
      (∃ evss, (ticks.foldl runStep (fsm, acc)).2 = acc ++ evss
          ∧ evss.map (eventsFor g)
            = (ticks.enumFrom (gs.stable + 1)).map
                (fun it => if it.1 = N then [⟨g, it.2.2⟩] else []))
        ∧ ∃ lt, alistGet (ticks.foldl runStep (fsm, acc)).1.gates g
            = some ⟨gs.name, "open", gs.stable + ticks.length, lt⟩ := by
  intro ticks
  induction ticks with
  | nil =>
    intro fsm acc gs hsf hnd hget hpos _
    refine ⟨⟨[], by simp, by simp⟩, gs.last_ts, ?_⟩
    show alistGet fsm.gates g = _
    rw [hget]
    congr 1
    obtain ⟨nm, pos, st, lt⟩ := gs
    simp only at hpos
    subst hpos
    rfl
  | cons t rest ih =>
    intro fsm acc gs hsf hnd hget hpos hticks
    have htopen : (t.1 g).1 = "open" := hticks t (List.mem_cons_self t rest)
    obtain ⟨hlook, hevts⟩ := update_gate fsm t.1 t.2 g gs hnd hget
    rw [htopen] at hlook hevts
    rw [hsf] at hlook hevts
    rw [gateStep_open_same_status N fsm.gate_tags fsm.plc_signal_on_open
      fsm.pulse_ms t.2 g gs hpos] at hlook
    rw [gateStep_open_same_events N fsm.gate_tags fsm.plc_signal_on_open
      fsm.pulse_ms t.2 g gs hpos] at hevts
    rw [List.foldl_cons, runStep_eq]
    have hsf' : (fsm.update t.1 t.2).1.stable_frames = N := by
      rw [(update_gate_config fsm t.1 t.2).1]; exact hsf
    have hnd' : ((fsm.update t.1 t.2).1.gates.map Prod.fst).Nodup := by
      rw [update_gate_keys]; exact hnd
    obtain ⟨⟨evss', hfold, hmap⟩, lt', hstate⟩ := ih (fsm.update t.1 t.2).1
      (acc ++ [(fsm.update t.1 t.2).2.1])
      ⟨gs.name, "open", gs.stable + 1, t.2⟩ hsf' hnd' hlook rfl
      (fun t' ht' => hticks t' (List.mem_cons_of_mem t ht'))
    constructor
    · refine ⟨(fsm.update t.1 t.2).2.1 :: evss', ?_, ?_⟩
      · rw [hfold, List.append_assoc]
        rfl
      · show eventsFor g (fsm.update t.1 t.2).2.1 :: evss'.map (eventsFor g) = _
        rw [hevts, hmap]
        rfl
    · refine ⟨lt', ?_⟩
      rw [hstate]
      have : gs.stable + 1 + rest.length = gs.stable + (rest.length + 1) := by
        omega
      simp only [this, List.length_cons]

theorem enumFrom_fst_bound {α : Type} :
    ∀ (l : List α) (n : Nat) (it : Nat × α), it ∈ l.enumFrom n →
      n ≤ it.1 ∧ it.1 < n + l.length := by
  intro l
  induction l with
  | nil => intro n it hit; simp at hit
  | cons x xs ih =>
    intro n it hit
    rw [List.enumFrom_cons] at hit
    rcases List.mem_cons.mp hit with hEq | hm
    · rw [hEq]
      constructor
      · exact le_refl n
      · show n < n + (xs.length + 1)
        omega
    · have := ih (n + 1) it hm
      constructor
      · omega
      · simp only [List.length_cons]
        omega

/-- `runTicks` never changes the configuration or the gate keys. -/
theorem runTicks_preserved :
    ∀ (ticks : List ((String → String × Metrics) × ℚ)) (fsm : GateFSM)
      (acc : List (List GateOpenedEvent)),
      (ticks.foldl runStep (fsm, acc)).1.stable_frames = fsm.stable_frames
        ∧ (ticks.foldl runStep (fsm, acc)).1.gates.map Prod.fst
            = fsm.gates.map Prod.fst := by
  intro ticks
  induction ticks with
  | nil => intro fsm acc; exact ⟨rfl, rfl⟩
  | cons t rest ih =>
    intro fsm acc
    rw [List.foldl_cons, runStep_eq]
    obtain ⟨h1, h2⟩ := ih (fsm.update t.1 t.2).1
      (acc ++ [(fsm.update t.1 t.2).2.1])
    exact ⟨h1.trans (update_gate_config fsm t.1 t.2).1,
      h2.trans (update_gate_keys fsm t.1 t.2)⟩

/-- A full "open" run started from a gate not currently at position "open":
per-tick events for the gate are exactly one event, on the tick whose
1-based index equals `N`; for a non-empty run the final status is
`("open", run length)`. -/
theorem openRun_from_nonopen (fsm : GateFSM) (g : String) (gs : GateStatus)
    (N : Nat) (hsf : fsm.stable_frames = N)
    (hnd : (fsm.gates.map Prod.fst).Nodup)
    (hget : alistGet fsm.gates g = some gs)
    (hpos : gs.position ≠ "open")
    (ticks : List ((String → String × Metrics) × ℚ))
    (hticks : ∀ t ∈ ticks, (t.1 g).1 = "open") :
    (fsm.runTicks ticks).2.map (eventsFor g)
        = (ticks.enumFrom 1).map
            (fun it => if it.1 = N then [⟨g, it.2.2⟩] else [])
      ∧ (ticks ≠ [] → ∃ lt,
          alistGet (fsm.runTicks ticks).1.gates g
            = some ⟨gs.name, "open", ticks.length, lt⟩) := by
  cases ticks with
  | nil => exact ⟨rfl, fun h => absurd rfl h⟩
  | cons t rest =>
    have htopen : (t.1 g).1 = "open" := hticks t (List.mem_cons_self t rest)
    obtain ⟨hlook, hevts⟩ := update_gate fsm t.1 t.2 g gs hnd hget
    rw [htopen, hsf] at hlook hevts
    rw [gateStep_open_diff_status N fsm.gate_tags fsm.plc_signal_on_open
      fsm.pulse_ms t.2 g gs hpos] at hlook
    rw [gateStep_open_diff_events N fsm.gate_tags fsm.plc_signal_on_open
      fsm.pulse_ms t.2 g gs hpos] at hevts
    have hsf' : (fsm.update t.1 t.2).1.stable_frames = N := by
      rw [(update_gate_config fsm t.1 t.2).1]; exact hsf
    have hnd' : ((fsm.update t.1 t.2).1.gates.map Prod.fst).Nodup := by
      rw [update_gate_keys]; exact hnd
    obtain ⟨⟨evss', hfold, hmap⟩, lt', hstate⟩ := openRun_aux N g rest
      (fsm.update t.1 t.2).1 [(fsm.update t.1 t.2).2.1]
      ⟨gs.name, "open", 1, t.2⟩ hsf' hnd' hlook rfl
      (fun t' ht' => hticks t' (List.mem_cons_of_mem t ht'))
    have hrun : fsm.runTicks (t :: rest)
        = rest.foldl runStep ((fsm.update t.1 t.2).1,
            [(fsm.update t.1 t.2).2.1]) := by
      unfold GateFSM.runTicks
      rw [List.foldl_cons, runStep_eq, List.nil_append]
    constructor
    · rw [hrun, hfold]
      show eventsFor g (fsm.update t.1 t.2).2.1 :: evss'.map (eventsFor g) = _
      rw [hevts, hmap, List.enumFrom_cons]
      rfl
    · intro _
      refine ⟨lt', ?_⟩
      rw [hrun, hstate]
      show some (⟨gs.name, "open", 1 + rest.length, lt'⟩ : GateStatus)
        = some (⟨gs.name, "open", rest.length + 1, lt'⟩ : GateStatus)
      rw [Nat.add_comm]

/-- C3: with confirmation threshold `N ≥ 1` and a gate whose position is not
"open" before the run:
(1) on any consecutive run of "open" statuses for that gate, its per-tick
events are exactly one `GateOpenedEvent` on the `N`-th tick of the run —
earlier ticks and ticks beyond the `N`-th emit nothing for it;
(2) fewer than `N` "open" ticks followed by a "closed" tick emit zero
events for the gate, and on the first tick of the next "open" run its
stable counter is 1 (at position "open"). -/
theorem gatefsm_debounce_emission (fsm : GateFSM) (g : String)
    (gs : GateStatus) (N : Nat) (hsf : fsm.stable_frames = N) (hN : 1 ≤ N)
    (hnd : (fsm.gates.map Prod.fst).Nodup)
    (hget : alistGet fsm.gates g = some gs)
    (hpos : gs.position ≠ "open") :
    (∀ ticks : List ((String → String × Metrics) × ℚ),
      (∀ t ∈ ticks, (t.1 g).1 = "open") →
      (fsm.runTicks ticks).2.map (eventsFor g)
        = (ticks.enumFrom 1).map
            (fun it => if it.1 = N then [⟨g, it.2.2⟩] else []))
      ∧ ∀ (opens : List ((String → String × Metrics) × ℚ))
          (tc tOpen : (String → String × Metrics) × ℚ),
          opens.length < N →
          (∀ t ∈ opens, (t.1 g).1 = "open") →
          (tc.1 g).1 = "closed" → (tOpen.1 g).1 = "open" →
          (∀ evs ∈ (fsm.runTicks (opens ++ [tc])).2, eventsFor g evs = [])
            ∧ ∃ lt, alistGet (fsm.runTicks (opens ++ [tc] ++ [tOpen])).1.gates g
                = some ⟨gs.name, "open", 1, lt⟩ := by
  constructor
  · intro ticks hticks
    exact (openRun_from_nonopen fsm g gs N hsf hnd hget hpos ticks hticks).1
  · intro opens tc tOpen hm hopens htc htopen
    obtain ⟨hmap1, hstate1⟩ := openRun_from_nonopen fsm g gs N hsf hnd hget
      hpos opens hopens
    -- the state of gate g after the (possibly empty) open run
    have hmid : ∃ gs1, alistGet (fsm.runTicks opens).1.gates g = some gs1
        ∧ gs1.name = gs.name := by
      by_cases hop : opens = []
      · subst hop
        exact ⟨gs, hget, rfl⟩
      · obtain ⟨lt, hst⟩ := hstate1 hop
        exact ⟨_, hst, rfl⟩
    obtain ⟨gs1, hget1, hname1⟩ := hmid
    obtain ⟨hsf1, hkeys1⟩ := runTicks_preserved opens fsm []
    have hsf1' : (fsm.runTicks opens).1.stable_frames = N := by
      show (opens.foldl runStep (fsm, [])).1.stable_frames = N
      rw [hsf1]; exact hsf
    have hnd1 : ((fsm.runTicks opens).1.gates.map Prod.fst).Nodup := by
      show ((opens.foldl runStep (fsm, [])).1.gates.map Prod.fst).Nodup
      rw [hkeys1]; exact hnd
    -- the closed tick
    obtain ⟨hlook2, hevts2⟩ := update_gate (fsm.runTicks opens).1 tc.1 tc.2
      g gs1 hnd1 hget1
    rw [htc, hsf1'] at hlook2 hevts2
    obtain ⟨hcpos, hcname, hcevts⟩ := gateStep_closed N
      (fsm.runTicks opens).1.gate_tags (fsm.runTicks opens).1.plc_signal_on_open
      (fsm.runTicks opens).1.pulse_ms tc.2 g gs1
    have hrun2 : fsm.runTicks (opens ++ [tc])
        = (((fsm.runTicks opens).1.update tc.1 tc.2).1,
            (fsm.runTicks opens).2 ++
              [((fsm.runTicks opens).1.update tc.1 tc.2).2.1]) := by
      unfold GateFSM.runTicks
      rw [List.foldl_append, List.foldl_cons, List.foldl_nil, runStep_eq]
    constructor
    · intro evs hevs
      rw [hrun2] at hevs
      rcases List.mem_append.mp hevs with hm1 | hm1
      · -- a tick of the open run: index ≤ m < N, hence no event
        have : eventsFor g evs ∈ (fsm.runTicks opens).2.map (eventsFor g) :=
          List.mem_map_of_mem _ hm1
        rw [hmap1] at this
        rcases List.mem_map.mp this with ⟨it, hit, hiteq⟩
        have hbound := enumFrom_fst_bound opens 1 it hit
        rw [← hiteq, if_neg (by omega)]
      · rw [List.mem_singleton.mp hm1]
        rw [hevts2]
        exact hcevts
    · -- the next "open" tick resets the counter to 1
      have hsf2 : (fsm.runTicks (opens ++ [tc])).1.stable_frames = N := by
        show ((opens ++ [tc]).foldl runStep (fsm, [])).1.stable_frames = N
        rw [(runTicks_preserved (opens ++ [tc]) fsm []).1]; exact hsf
      have hnd2 : ((fsm.runTicks (opens ++ [tc])).1.gates.map Prod.fst).Nodup := by
        show (((opens ++ [tc]).foldl runStep (fsm, [])).1.gates.map Prod.fst).Nodup
        rw [(runTicks_preserved (opens ++ [tc]) fsm []).2]; exact hnd
      have hget2 : alistGet (fsm.runTicks (opens ++ [tc])).1.gates g
          = some (gateStep N (fsm.runTicks opens).1.gate_tags
              (fsm.runTicks opens).1.plc_signal_on_open
              (fsm.runTicks opens).1.pulse_ms tc.2 g "closed" gs1).1 := by
        rw [hrun2]
        exact hlook2
      obtain ⟨hlook3, _⟩ := update_gate (fsm.runTicks (opens ++ [tc])).1
        tOpen.1 tOpen.2 g _ hnd2 hget2
      rw [htopen, hsf2] at hlook3
      rw [gateStep_open_diff_status N _ _ _ tOpen.2 g _ (by
        rw [hcpos]; simp)] at hlook3
      have hrun3 : fsm.runTicks (opens ++ [tc] ++ [tOpen])
          = (((fsm.runTicks (opens ++ [tc])).1.update tOpen.1 tOpen.2).1,
              (fsm.runTicks (opens ++ [tc])).2 ++
                [((fsm.runTicks (opens ++ [tc])).1.update tOpen.1 tOpen.2).2.1]) := by
        unfold GateFSM.runTicks
        rw [List.foldl_append, List.foldl_append, List.foldl_cons,
          List.foldl_nil, List.foldl_cons, List.foldl_nil, runStep_eq]
      refine ⟨tOpen.2, ?_⟩
      rw [hcname, hname1] at hlook3
      rw [hrun3]
      exact hlook3

/-- Witness for C3 with threshold `N = 2` on the default gate set: three
"open" ticks emit exactly one event, on the second tick; one "open" tick
followed by "closed" emits nothing and the next "open" tick restarts the
stable counter at 1. -/
theorem gatefsm_debounce_emission_witness :
    (gFSM.runTicks [((fun _ => ("open", [])), 1), ((fun _ => ("open", [])), 2),
        ((fun _ => ("open", [])), 3)]).2.map (eventsFor "gate1")
      = [[], [⟨"gate1", 2⟩], []]
    ∧ (∀ evs ∈ (gFSM.runTicks [((fun _ => ("open", [])), 1),
          ((fun _ => ("closed", [])), 2)]).2, eventsFor "gate1" evs = [])
    ∧ ∃ lt, alistGet (gFSM.runTicks [((fun _ => ("open", [])), 1),
          ((fun _ => ("closed", [])), 2),
          ((fun _ => ("open", [])), 3)]).1.gates "gate1"
        = some ⟨"gate1", "open", 1, lt⟩ := by
  obtain ⟨h1, h2⟩ := gatefsm_debounce_emission gFSM "gate1"
    { name := "gate1" } 2 rfl (by decide) (by decide) (by decide) (by decide)
  have hp2 := h2 [((fun _ => ("open", [])), 1)] ((fun _ => ("closed", [])), 2)
    ((fun _ => ("open", [])), 3) (by decide) (by decide) rfl rfl
  refine ⟨?_, hp2.1, hp2.2⟩
  rw [h1 [((fun _ => ("open", [])), 1), ((fun _ => ("open", [])), 2),
    ((fun _ => ("open", [])), 3)] (by decide)]
  decide

/-! ## Geometry gate source (`src/logic/gate_sources.py`) -/

/-- `GeometryGateSource`: the `ROIManager` is abstracted by the containment
oracle `contains`, the set of loaded ROI names `roiNames` (`rois.rois`
membership), and the polygon-area oracle `roiArea` (cv2 contour area). -/
structure GeometryGateSource where
  contains : String → ℚ → ℚ → Bool
  roiNames : List String
  roiArea : String → ℚ
  min_gate_conf : ℚ
  max_area_ratio_vs_closed : ℚ
  max_w_over_h : ℚ
  human_iou_occlusion : ℚ

/-- Python's `str.lower()` (character-wise lowering). -/
def strLower (s : String) : String := String.mk (s.data.map Char.toLower)

/-- `_best_det`: highest-confidence detection of a class above a confidence
floor; Python's `max` keeps the first of equal maxima. -/
def bestDet (dets : List TrackDet) (cls : String) (minConf : ℚ) :
    Option TrackDet :=
  (dets.filter (fun d =>
      strLower d.cls_name == strLower cls && decide (minConf ≤ d.conf))).foldl
    (fun best d =>
      match best with
      | none => some d
      | some b => if b.conf < d.conf then some d else some b)
    none

def isHumanCls (s : String) : Bool :=
  strLower s == "human" || strLower s == "humans"

/-- One human detection tripping the occlusion guard for a gate box (the
three early-return conditions of the human loop, in source order). -/
def humanBlocks (src : GeometryGateSource) (closedRoi : String)
    (gateBBox : BBox) (d : TrackDet) : Bool :=
  isHumanCls d.cls_name &&
    (decide (src.human_iou_occlusion ≤ iou d.bbox gateBBox)
      || src.contains closedRoi (d.bbox.centroid).1 (d.bbox.centroid).2
      || (src.contains RoiName.SAFETY_CRITICAL (d.bbox.centroid).1
            (d.bbox.centroid).2
          && decide (src.human_iou_occlusion ≤ iou d.bbox gateBBox)))

/-- The open/closed decision once the guards have passed, with metrics. -/
def gateGeomClassify (src : GeometryGateSource) (gate_name : String)
    (gate_det : TrackDet) : String × Metrics :=
  let in_open := src.contains ("roi_" ++ gate_name ++ "_open")
    (gate_det.bbox.centroid).1 (gate_det.bbox.centroid).2
  let closed_area := max 1 (src.roiArea ("roi_" ++ gate_name ++ "_closed"))
  let area_ratio := gate_det.bbox.area / closed_area
  let w_over_h := gate_det.bbox.w / max 1 gate_det.bbox.h
  let metrics : Metrics := [("closed_area", closed_area),
    ("area_ratio", area_ratio), ("w_over_h", w_over_h)]
  if in_open && decide (w_over_h < src.max_w_over_h)
      && decide (area_ratio < src.max_area_ratio_vs_closed) then
    ("open", metrics)
  else ("closed", metrics)

/-- `GeometryGateSource.get_position(gate_name, frame, dets)`. -/
def GeometryGateSource.get_position (src : GeometryGateSource)
    (gate_name : String) (dets? : Option (List TrackDet)) : String × Metrics :=
  match dets? with
  | none => ("unknown", [])
  | some dets =>
    match bestDet dets gate_name src.min_gate_conf with
    | none => ("unknown", [])
    | some gate_det =>
      if ¬(("roi_" ++ gate_name ++ "_open") ∈ src.roiNames)
          ∨ ¬(("roi_" ++ gate_name ++ "_closed") ∈ src.roiNames) then
        ("unknown", [])
      else if dets.any
          (humanBlocks src ("roi_" ++ gate_name ++ "_closed")
            gate_det.bbox) then
        ("unknown", [])
      else gateGeomClassify src gate_name gate_det

/-! ## C7: the human-occlusion guard forces "unknown" -/

/-- C7: whenever the detections hold a qualifying gate detection and any
human-class detection either overlaps the gate box with IoU at or above the
occlusion threshold, or has its centroid inside the gate's "closed"
reference ROI, or sits in the safety-critical ROI while overlapping the
gate box at or above the threshold, `get_position` returns "unknown" —
regardless of the gate box's position, aspect ratio or area. -/
theorem geometry_human_occlusion_unknown (src : GeometryGateSource)
    (g : String) (dets : List TrackDet) (gd : TrackDet) (d : TrackDet)
    (hbest : bestDet dets g src.min_gate_conf = some gd)
    (hd : d ∈ dets) (hh : isHumanCls d.cls_name = true)
    (hcond : src.human_iou_occlusion ≤ iou d.bbox gd.bbox
      ∨ src.contains ("roi_" ++ g ++ "_closed") (d.bbox.centroid).1
          (d.bbox.centroid).2 = true
      ∨ (src.contains RoiName.SAFETY_CRITICAL (d.bbox.centroid).1
            (d.bbox.centroid).2 = true
          ∧ src.human_iou_occlusion ≤ iou d.bbox gd.bbox)) :
    (src.get_position g (some dets)).1 = "unknown" := by
  have hblocks : humanBlocks src ("roi_" ++ g ++ "_closed") gd.bbox d
      = true := by
    unfold humanBlocks
    rw [hh, Bool.true_and]
    rcases hcond with h1 | h2 | ⟨h3, h4⟩
    · rw [decide_eq_true h1]
      simp
    · rw [h2]
      simp
    · rw [h3, decide_eq_true h4]
      simp
  have hany : dets.any
      (humanBlocks src ("roi_" ++ g ++ "_closed") gd.bbox) = true :=
    List.any_eq_true.mpr ⟨d, hd, hblocks⟩
  unfold GeometryGateSource.get_position
  simp only [hbest]
  by_cases hroi : ("roi_" ++ g ++ "_open") ∉ src.roiNames
      ∨ ("roi_" ++ g ++ "_closed") ∉ src.roiNames
  · rw [if_pos hroi]
  · rw [if_neg hroi, if_pos hany]

/-- Concrete source and detections for the C7 witness: the human's centroid
lies inside the gate's "closed" reference ROI. -/
def c7Src : GeometryGateSource :=
  { contains := fun n _ _ => n == "roi_gate1_closed"
    roiNames := ["roi_gate1_open", "roi_gate1_closed"]
    roiArea := fun _ => 1000
    min_gate_conf := 1
    max_area_ratio_vs_closed := 1
    max_w_over_h := 1
    human_iou_occlusion := 1 }

def c7Gate : TrackDet := ⟨"gate1", 1, none, ⟨0, 0, 10, 10⟩⟩
def c7Human : TrackDet := ⟨"human", 1, none, ⟨100, 100, 102, 102⟩⟩

/-- Witness for C7: the guard fires on the closed-ROI disjunct. -/
theorem geometry_human_occlusion_unknown_witness :
    (bestDet [c7Gate, c7Human] "gate1" c7Src.min_gate_conf = some c7Gate
        ∧ c7Human ∈ [c7Gate, c7Human]
        ∧ isHumanCls c7Human.cls_name = true
        ∧ c7Src.contains ("roi_" ++ "gate1" ++ "_closed")
            (c7Human.bbox.centroid).1 (c7Human.bbox.centroid).2 = true)
      ∧ (c7Src.get_position "gate1" (some [c7Gate, c7Human])).1
          = "unknown" :=
  ⟨⟨by decide, by decide, by decide, by decide⟩,
    geometry_human_occlusion_unknown c7Src "gate1" [c7Gate, c7Human] c7Gate
      c7Human (by decide) (by decide) (by decide)
      (Or.inr (Or.inl (by decide)))⟩

end PipeDetect
